import Mathlib

/-!
# k8s-svc-cert-issuer: a shallow embedding of `main.go`

The program scans every kube context for services, port-forwards to each one,
performs a TLS handshake and reports the issuer of the certificate.

Conventions of the embedding

* Go `string` is `String`; the functions of package `strings`, `fmt` and
  `regexp` that the program calls are written over `List Char` (the runes of
  the string).
* A goroutine is a component of a state; a communication on an unbuffered
  channel is one action of a step function in which the sender and the
  receiver move together.  A schedule is a list of attempted actions, an
  action that is not enabled leaves the state as it is.
* The outside world of `processService` (kubectl, the network) is a record of
  the answers it gives.
-/

namespace K8sCertIssuer

/-! ## Data model (`main.go` 31-46) -/

/-- The struct `Service`. -/
structure Service where
  Name : String
  Port : String
  Context : String
  Namespace : String
  CertIssuer : String
  Error : String
  StatusCode : Int
  deriving DecidableEq, Repr

/-- The struct `Context`. -/
structure Context where
  Name : String
  Namespace : String
  Status : String
  StatusCode : Int
  deriving DecidableEq, Repr

-- A Go result `(value, error)` is an `Except`; two results can be compared.
deriving instance DecidableEq for Except

/-! ## Schedules -/

/-- Runs a schedule: every action is attempted in turn, an action that is not
enabled (`step` gives `none`) is skipped. -/
def runSched {σ α : Type} (step : σ → α → Option σ) : σ → List α → σ
  | s, [] => s
  | s, a :: as =>
    match step s a with
    | some s' => runSched step s' as
    | none => runSched step s as

/-- The number of actions of a schedule that took effect. -/
def effSteps {σ α : Type} (step : σ → α → Option σ) : σ → List α → Nat
  | _, [] => 0
  | s, a :: as =>
    match step s a with
    | some s' => effSteps step s' as + 1
    | none => effSteps step s as

/-! ## Package `strings` -/

namespace Strings

/-- The runes of `unicode.White_Space`, as tested by `unicode.IsSpace`. -/
def isSpace (c : Char) : Bool :=
  let n := c.toNat
  (0x09 ≤ n && n ≤ 0x0d) || n == 0x20 || n == 0x85 || n == 0xa0 || n == 0x1680 ||
    (0x2000 ≤ n && n ≤ 0x200a) || n == 0x2028 || n == 0x2029 || n == 0x202f ||
    n == 0x205f || n == 0x3000

/-- `strings.TrimSpace` on the runes of a string. -/
def trimSpace (s : List Char) : List Char :=
  ((s.dropWhile isSpace).reverse.dropWhile isSpace).reverse

/-- Lower case of a rune, for the letters `A` to `Z`.  The runes outside ASCII
are left as they are: none of them has a lower case in ASCII but U+0130 (`i`)
and U+212A (`k`), so that the search for `error` below is not affected. -/
def toLowerRune (c : Char) : Char :=
  if 'A' ≤ c ∧ c ≤ 'Z' then Char.ofNat (c.toNat + 32) else c

/-- `strings.ToLower` on the runes of a string (see `toLowerRune`). -/
def toLower (s : List Char) : List Char :=
  s.map toLowerRune

/-- `strings.HasPrefix`. -/
def startsWith : List Char → List Char → Bool
  | _, [] => true
  | [], _ :: _ => false
  | c :: s, d :: p => c == d && startsWith s p

/-- `strings.Contains`. -/
def contains : List Char → List Char → Bool
  | [], sub => startsWith [] sub
  | c :: s, sub => startsWith (c :: s) sub || contains s sub

/-- `strings.Replace(s, old, "", -1)` for an `old` of one rune: every
occurrence is removed. -/
def removeAll (old : Char) (s : List Char) : List Char :=
  s.filter (fun c => c != old)

/-- `strings.Split(s, sep)` for a `sep` of one rune: the pieces between the
occurrences of `sep`, the current piece being `cur`. -/
def splitAux (sep : Char) : List Char → List Char → List (List Char)
  | [], cur => [cur]
  | c :: s, cur => if c == sep then cur :: splitAux sep s [] else splitAux sep s (cur ++ [c])

/-- `strings.Split(s, sep)` for a `sep` of one rune. -/
def split (sep : Char) (s : List Char) : List (List Char) :=
  splitAux sep s []

end Strings

/-! ## Package `fmt`: `Sprintf` without operands

`processService` calls `fmt.Sprintf(out)`: the tunnel output is the format and
there is no operand.  What follows is `(*pp).doPrintf` for `len(a) = 0`; an
index `i` into the format is the suffix of the format that starts at `i`. -/

namespace Fmt

/-- The flags `#0+- ` that may follow `%`. -/
def isFlag (c : Char) : Bool :=
  c == '#' || c == '0' || c == '+' || c == '-' || c == ' '

/-- The test `'0' <= s[newi] && s[newi] <= '9'`. -/
def isDigit (c : Char) : Bool :=
  decide ('0' ≤ c ∧ c ≤ '9')

/-- The function `tooLarge`: `x > 1e6`. -/
def tooLarge (x : Nat) : Bool :=
  decide (x > 1000000)

/-- The function `parsenum` on the text `s[start:end]`, with the number read so
far and whether a digit was seen: the number, `isnum` and the suffix where the
number ends (the end of the text on overflow). -/
def parsenum : List Char → Nat → Bool → Nat × Bool × List Char
  | [], num, isnum => (num, isnum, [])
  | c :: s, num, isnum =>
    if isDigit c then
      if tooLarge num then (0, false, [])
      else parsenum s (num * 10 + (c.toNat - 48)) true
    else (num, isnum, c :: s)

/-- The function `parseArgNumber` on a format that starts with `[`: the width
of the bracketed index and whether it is a number. -/
def parseArgNumber (format : List Char) : Nat × Bool :=
  if format.length < 3 then (1, false)
  else
    let body := (format.drop 1).takeWhile (fun c => c != ']')
    if (format.drop 1).length == body.length then (1, false)
    else
      match parsenum body 0 false with
      | (_, true, []) => (body.length + 2, true)
      | _ => (body.length + 2, false)

/-- The function `argNumber` with `numArgs = 0`: the suffix after an index
`[n]` if there is one, `found`, and whether `goodArgNum` was cleared. -/
def argNumber (format : List Char) : List Char × Bool × Bool :=
  match format with
  | '[' :: _ =>
    let r := parseArgNumber format
    (format.drop r.1, r.2, true)
  | _ => (format, false, false)

/-- The width of a verb: the suffix after it, `afterIndex`, whether
`goodArgNum` was cleared, and what was written (`badWidthString` for `*`). -/
def width (format : List Char) (afterIndex : Bool) : List Char × Bool × Bool × List Char :=
  match format with
  | '*' :: r => (r, false, false, "%!(BADWIDTH)".data)
  | _ =>
    let r := parsenum format 0 false
    (r.2.2, afterIndex, afterIndex && r.2.1, [])

/-- The precision of a verb, read under the test `i+1 < end && format[i] == '.'`
(a `.` that ends the format is left to be the verb): the suffix after it,
`afterIndex`, whether `goodArgNum` was cleared, and what was written
(`badPrecString` for `*`). -/
def precision (format : List Char) (afterIndex : Bool) : List Char × Bool × Bool × List Char :=
  match format with
  | '.' :: c :: r =>
    let a := argNumber (c :: r)
    match a.1 with
    | '*' :: r2 => (r2, false, afterIndex || a.2.2, "%!(BADPREC)".data)
    | _ => ((parsenum a.1 0 false).2.2, a.2.1, afterIndex || a.2.2, [])
  | _ => (format, afterIndex, false, [])

/-- One verb of the format, `format` being the text after its `%`: what is
written for it and the suffix of the format where the scan goes on. -/
def verb (format : List Char) : List Char × List Char :=
  let f1 := format.dropWhile isFlag
  let a := argNumber f1
  let w := width a.1 a.2.1
  let p := precision w.1 w.2.1
  let b := if p.2.1 then (p.1, true, false) else argNumber p.1
  let goodArgNum := !(a.2.2 || w.2.2.1 || p.2.2.1 || b.2.2)
  let written := w.2.2.2 ++ p.2.2.2
  match b.1 with
  | [] => (written ++ "%!(NOVERB)".data, [])
  | v :: r =>
    if v == '%' then (written ++ ['%'], r)
    else if !goodArgNum then (written ++ "%!".data ++ [v] ++ "(BADINDEX)".data, r)
    else (written ++ "%!".data ++ [v] ++ "(MISSING)".data, r)

/-- The loop `formatLoop` of `doPrintf`: `skip` runes of the format belong to
the verb that was just read, the text up to the next `%` is copied. -/
def doPrintf : Nat → List Char → List Char
  | _, [] => []
  | skip + 1, _ :: t => doPrintf skip t
  | 0, c :: t =>
    if c == '%' then (verb t).1 ++ doPrintf (t.length - (verb t).2.length) t
    else c :: doPrintf 0 t

/-- The call `fmt.Sprintf(format)`, without operands. -/
def Sprintf (format : String) : String :=
  String.mk (doPrintf 0 format.data)

end Fmt

/-! ## Output format (`main.go` 57-60, 260-277) -/

/-- The command line flags of `main`. -/
structure Flags where
  verbose : Bool
  jsonFmt : Bool
  csvFmt : Bool
  outFile : String
  deriving DecidableEq, Repr

/-- The default values given to `flag.Bool` and `flag.String`. -/
def flagDefaults : Flags :=
  { verbose := false, jsonFmt := false, csvFmt := true, outFile := "" }

/-- The branch `if *jsonFmt && !*csvFmt` of `main`: the value of `fileFmt`,
which names the marshaller that produced the output. -/
def fileFmt (f : Flags) : String :=
  if f.jsonFmt && !f.csvFmt then "json" else "csv"

/-! ## Context source `gen` (`main.go` 98-118) -/

namespace Gen

/-- State of the goroutine of `gen` and of its channel: the contexts the
`range` loop has still to visit, the values received from `contextStream` so
far, whether `contextStream` is closed, whether `done` is closed. -/
structure State where
  rest : List Context
  sent : List Context
  closed : Bool
  cancelled : Bool
  deriving DecidableEq, Repr

/-- The actions of the goroutine. -/
inductive Act where
  /-- a loop iteration on a context that fails the `if` -/
  | skip
  /-- the case `contextStream <- kctx` of the `select`, the reader receives -/
  | send
  /-- the case `<-done` of the `select`: `return` -/
  | cancel
  /-- the loop is over: the deferred `close(contextStream)` -/
  | close
  deriving DecidableEq, Repr

/-- The condition of the `if` in the loop body. -/
def keep (kctx : Context) : Bool :=
  kctx.Name != "" && kctx.Namespace != ""

/-- One step of the goroutine of `gen`. -/
def step (s : State) : Act → Option State
  | .skip =>
    match s.closed, s.rest with
    | false, kctx :: rest => if keep kctx then none else some { s with rest := rest }
    | _, _ => none
  | .send =>
    match s.closed, s.rest with
    | false, kctx :: rest =>
      if keep kctx then some { s with rest := rest, sent := s.sent ++ [kctx] } else none
    | _, _ => none
  | .cancel =>
    match s.closed, s.rest with
    | false, kctx :: _ =>
      if keep kctx && s.cancelled then some { s with rest := [], closed := true } else none
    | _, _ => none
  | .close =>
    match s.closed, s.rest with
    | false, [] => some { s with closed := true }
    | _, _ => none

/-- The call `gen(done, logger, kubeconfig, kubeContext...)` with `done` open. -/
def init (kubeContext : List Context) : State :=
  { rest := kubeContext, sent := [], closed := false, cancelled := false }

/-- The stream `gen` is to produce. -/
def expected (kubeContext : List Context) : List Context :=
  kubeContext.filter keep

end Gen

/-! ## Package `regexp`

The two patterns of the program are built from literals, classes of one rune,
greedy repetitions `x{min,}` of a class, named groups, `^` and `$`.  The
matcher is the backtracking search whose first answer `regexp` returns
(leftmost-first); it is written with a continuation for what follows. -/

namespace Regexp

/-- The syntax of a pattern. -/
inductive Re where
  /-- a literal rune -/
  | lit (c : Char)
  /-- a class matching one rune: `.`, `\s`, `[\S]` -/
  | cls (p : Char → Bool)
  /-- a greedy repetition `x{min,}` of a class; `x*` is `x{0,}`, `x+` is `x{1,}` -/
  | rep (p : Char → Bool) (min : Nat)
  /-- concatenation -/
  | cat (a b : Re)
  /-- the capturing group number `index`, `(?P<name>a)` -/
  | group (index : Nat) (name : String) (a : Re)
  /-- `^`, the beginning of the text (no flag `m`) -/
  | bol
  /-- `$`, the end of the text (no flag `m`) -/
  | eol

/-- The class `.`: any rune but a newline (no flag `s`). -/
def dot (c : Char) : Bool :=
  c != '\n'

/-- The Perl class `\s`, which is `[\t\n\f\r ]`. -/
def perlSpace (c : Char) : Bool :=
  c == '\t' || c == '\n' || c == Char.ofNat 0x0c || c == '\r' || c == ' '

/-- The class `[\S]`. -/
def notPerlSpace (c : Char) : Bool :=
  !perlSpace c

/-- The captures of a match in progress: group number and captured text, the
latest first. -/
abbrev Caps := List (Nat × List Char)

/-- Greedy repetition of a class, `min` runes at least, at offset `pos` of the
text with `s` left to read: the longest run is tried first, then shorter ones,
each with the continuation `k`. -/
def repGreedy {α : Type} (p : Char → Bool) :
    Nat → Nat → List Char → (Nat → List Char → Option α) → Option α
  | 0, pos, [], k => k pos []
  | _ + 1, _, [], _ => none
  | 0, pos, c :: s, k =>
    if p c then
      match repGreedy p 0 (pos + 1) s k with
      | some r => some r
      | none => k pos (c :: s)
    else k pos (c :: s)
  | min + 1, pos, c :: s, k =>
    if p c then repGreedy p min (pos + 1) s k else none

/-- Matches `re` at offset `pos` of the text with `s` left to read, then goes
on with `k`; backtracks into `re` when `k` fails. -/
def Re.run : Re → Nat → List Char → Caps →
    (Nat → List Char → Caps → Option Caps) → Option Caps
  | .lit c, pos, s, caps, k =>
    match s with
    | d :: t => if d == c then k (pos + 1) t caps else none
    | [] => none
  | .cls p, pos, s, caps, k =>
    match s with
    | d :: t => if p d then k (pos + 1) t caps else none
    | [] => none
  | .rep p min, pos, s, caps, k =>
    repGreedy p min pos s (fun pos' s' => k pos' s' caps)
  | .cat a b, pos, s, caps, k =>
    a.run pos s caps (fun pos' s' caps' => b.run pos' s' caps' k)
  | .group index _ a, pos, s, caps, k =>
    a.run pos s caps (fun pos' s' caps' => k pos' s' ((index, s.take (pos' - pos)) :: caps'))
  | .bol, pos, s, caps, k => if pos == 0 then k pos s caps else none
  | .eol, pos, s, caps, k => if s.isEmpty then k pos s caps else none

/-- The unanchored search: the match is tried at every offset in turn, from
the left, the whole match being group 0. -/
def search (re : Re) : Nat → List Char → Option Caps
  | pos, [] => re.run pos [] [] (fun _ _ caps => some ((0, []) :: caps))
  | pos, c :: s =>
    match re.run pos (c :: s) [] (fun pos' _ caps => some ((0, (c :: s).take (pos' - pos)) :: caps)) with
    | some caps => some caps
    | none => search re (pos + 1) s

/-- The names of the groups of a pattern, from the left. -/
def Re.groupNames : Re → List String
  | .cat a b => a.groupNames ++ b.groupNames
  | .group _ name a => name :: a.groupNames
  | _ => []

/-- The method `SubexpNames`: the name of group 0 is the empty string. -/
def Re.SubexpNames (re : Re) : List String :=
  "" :: re.groupNames

/-- The method `FindStringSubmatch`: the text of the leftmost match and of
its groups, no element (`nil`) when there is no match.  A group that took no
part in the match gives the empty string. -/
def Re.FindStringSubmatch (re : Re) (str : String) : List String :=
  match search re 0 str.data with
  | none => []
  | some caps =>
    (List.range re.SubexpNames.length).map (fun i => String.mk ((caps.lookup i).getD []))

end Regexp

/-! ## The patterns and `reSubMatchMap` (`main.go` 49, 417, 451-465) -/

open Regexp in
/-- The pattern `O=(?P<issuer>.*),`. -/
def issuerPattern : Re :=
  .cat (.lit 'O') (.cat (.lit '=') (.cat (.group 1 "issuer" (.rep dot 0)) (.lit ',')))

open Regexp in
/-- The pattern of `getContexts`,
`^(?P<context>[\S]{3,})\s+(?P<cluster>[\S]{3,})\s+(?P<authInfo>[\S]{0,})\s*(?P<namespace>[\S]{0,})$`. -/
def contextPattern : Re :=
  .cat .bol
    (.cat (.group 1 "context" (.rep notPerlSpace 3))
      (.cat (.rep perlSpace 1)
        (.cat (.group 2 "cluster" (.rep notPerlSpace 3))
          (.cat (.rep perlSpace 1)
            (.cat (.group 3 "authInfo" (.rep notPerlSpace 0))
              (.cat (.rep perlSpace 0)
                (.cat (.group 4 "namespace" (.rep notPerlSpace 0)) .eol)))))))

/-- A Go `map[string]string`: the keys with their values. -/
abbrev StringMap := List (String × String)

/-- The assignment `m[key] = value`. -/
def StringMap.set (m : StringMap) (key value : String) : StringMap :=
  (key, value) :: m.filter (fun e => e.1 != key)

/-- The expression `m[key]` on a map that may be `nil`: the empty string when
the key is absent. -/
def mapIndex (m : Option StringMap) (key : String) : String :=
  match m with
  | none => ""
  | some m => (m.lookup key).getD ""

/-- The loop of `reSubMatchMap` over `r.SubexpNames()`, at index `i`. -/
def subMatchLoop (matched : List String) : Nat → List String → StringMap → StringMap
  | _, [], m => m
  | i, name :: names, m =>
    if i != 0 then subMatchLoop matched (i + 1) names (m.set name (matched.getD i ""))
    else subMatchLoop matched (i + 1) names m

/-- The function `reSubMatchMap`: `nil` when the pattern does not match. -/
def reSubMatchMap (r : Regexp.Re) (str : String) : Option StringMap :=
  let matched := r.FindStringSubmatch str
  if matched.length < 1 then none
  else some (subMatchLoop matched 0 r.SubexpNames [])

/-! ## The probe of one service (`main.go` 312-410, 525-548)

The outside world of one call of `processService` is a record of the answers
it gives; what the call does to the world is the list of its events. -/

/-- The answer to the first receive `out, ok := <-pfc.OutputChan`. -/
inductive Recv where
  /-- a line was written: `ok` is true -/
  | line (out : String)
  /-- the channel was closed with nothing in it: `out` is empty, `ok` false -/
  | closed
  /-- nothing is written and the channel stays open: the receive blocks -/
  | blocks
  deriving DecidableEq, Repr

/-- The world of one probe. -/
structure World where
  /-- `net.Listen("tcp", "127.0.0.1:0")` in `getPort`: the port it is given,
  or the error -/
  listen : Except String String
  /-- `c.Start()` in `portForward`: `none` when the command started, else the
  error -/
  start : Option String
  /-- the first receive on the output channel of the tunnel -/
  output : Recv
  /-- the answers of the successive calls `IsOpened("localhost", port)`; once
  the list is over, every further call answers false -/
  polls : List Bool
  /-- `tls.Dial` in `getCertIssuer`: the error, or the issuer strings
  `Issuer.String()` of `state.PeerCertificates` -/
  dial : Except String (List String)

/-- What a call does to the world. -/
inductive Event where
  /-- `c.Start()`, with the arguments of `kubectl` -/
  | start (args : List String)
  /-- `Exit()` on the tunnel -/
  | exit
  /-- a call of `IsOpened` -/
  | poll
  /-- `time.Sleep(1 * time.Second)` -/
  | sleep
  /-- `tls.Dial` -/
  | dial
  deriving DecidableEq, Repr

/-- How a call ends. -/
inductive Outcome (α : Type) where
  /-- the function returns -/
  | ret (value : α)
  /-- a run-time panic: the program stops -/
  | panic (msg : String)
  /-- the call never returns -/
  | hang
  deriving DecidableEq, Repr

/-- A call: its events, in order, and how it ends.  The events of a call that
hangs are those that come before the receive or the loop that never ends. -/
structure Call (α : Type) where
  events : List Event
  outcome : Outcome α
  deriving DecidableEq, Repr

/-- The message of the run-time panic on a nil pointer or nil interface. -/
def nilDeref : String :=
  "runtime error: invalid memory address or nil pointer dereference"

/-- The function `getPort`.  When `net.Listen` fails `l` is nil, and
`defer l.Close()` comes before the test of `err`: the call panics. -/
def getPort (w : World) : Outcome String :=
  match w.listen with
  | .error _ => .panic nilDeref
  | .ok port => .ret port

/-- The function `portForward`: the tunnel (`nil` is `none`) and the port. -/
def portForward (w : World) (cStr _nsStr svcStr : String) : Call (Option Unit × String) :=
  match getPort w with
  | .panic msg => ⟨[], .panic msg⟩
  | .hang => ⟨[], .hang⟩
  | .ret port =>
    let ports := port ++ ":" ++ "443"
    let started := Event.start ["kubectl", cStr, "port-forward", svcStr, ports]
    match w.start with
    | some _ => ⟨[started, .exit], .ret (none, port)⟩
    | none => ⟨[started], .ret (some (), port)⟩

/-- The function `getCertIssuer`. -/
def getCertIssuer (w : World) (_host _port : String) : Except String String :=
  match w.dial with
  | .error err => .error err
  | .ok peerCertificates =>
    match peerCertificates with
    | issuer :: _ => .ok issuer
    | [] => .ok ""

/-- The loop `for !IsOpened("localhost", port) { time.Sleep(...) }` against
the answers of the world: its events when it ends, `none` when it never
does. -/
def waitOpened : List Bool → Option (List Event)
  | [] => none
  | true :: _ => some [.poll]
  | false :: polls =>
    match waitOpened polls with
    | some events => some (.poll :: .sleep :: events)
    | none => none

/-- The test `strings.Contains(strings.ToLower(strings.TrimSpace(out)), "error")`. -/
def saysError (out : String) : Bool :=
  Strings.contains (Strings.toLower (Strings.trimSpace out.data)) "error".data

/-- The function `processService` from the test of the first line on: `ev`
are the events so far, `out` and `ok` the values of the receive
`out, ok := <-pfc.OutputChan`. -/
def afterReceive (w : World) (s : Service) (ev : List Event) (port out : String)
    (ok : Bool) : Call Service :=
  if saysError out then
    ⟨ev ++ [.exit], .ret { s with StatusCode := 210, Error := Fmt.Sprintf out }⟩
  else
    let ev1 := if !ok then ev ++ [.exit] else ev
    let s1 := if !ok then { s with StatusCode := 220, Error := "output returned !OK" } else s
    match waitOpened w.polls with
    | none => ⟨ev1, .hang⟩
    | some polled =>
      match getCertIssuer w "localhost" port with
      | .error err =>
        ⟨ev1 ++ polled ++ [.dial, .exit], .ret { s1 with Error := err, StatusCode := 230 }⟩
      | .ok certInfo =>
        let r := reSubMatchMap issuerPattern certInfo
        ⟨ev1 ++ polled ++ [.dial, .exit], .ret { s1 with CertIssuer := mapIndex r "issuer" }⟩

/-- The function `processService`. -/
def processService (w : World) (s : Service) : Call Service :=
  if s.Name == "docker-desktop" then
    ⟨[], .ret { s with Error := "docker-desktop service", StatusCode := 200 }⟩
  else
    let cStr := "--context=" ++ s.Context
    let nsStr := "--namespace=" ++ s.Namespace
    let svcStr := "svc/" ++ s.Name
    match portForward w cStr nsStr svcStr with
    | ⟨ev, .panic msg⟩ => ⟨ev, .panic msg⟩
    | ⟨ev, .hang⟩ => ⟨ev, .hang⟩
    | ⟨ev, .ret (none, _)⟩ => ⟨ev, .panic nilDeref⟩
    | ⟨ev, .ret (some _, port)⟩ =>
      match w.output with
      | .blocks => ⟨ev, .hang⟩
      | .line out => afterReceive w s ev port out true
      | .closed => afterReceive w s ev port "" false

/-! ## The list of contexts (`main.go` 415-449) -/

/-- The body of the loop `for x, l := range lines` of `getContexts` for one
line that is not the first: the context the line gives, if any. -/
def contextOfLine (l : String) : Option Context :=
  let l := String.mk (Strings.removeAll '*' (Strings.trimSpace l.data))
  let parts := reSubMatchMap contextPattern l
  match parts with
  | none => none
  | some _ =>
    some { Name := mapIndex parts "context", Namespace := mapIndex parts "namespace",
           Status := "", StatusCode := 0 }

/-- The loop `for x, l := range lines` of `getContexts`. -/
def contextsLoop : Nat → List String → List Context → List Context
  | _, [], contexts => contexts
  | x, l :: lines, contexts =>
    if x == 0 then contextsLoop (x + 1) lines contexts
    else
      match contextOfLine l with
      | none => contextsLoop (x + 1) lines contexts
      | some c => contextsLoop (x + 1) lines (contexts ++ [c])

/-- The function `getContexts`, `run` being what `kubectl config get-contexts`
wrote to its standard output, or the error of `cmd.Run()`. -/
def getContexts (run : Except String String) : Except String (List Context) :=
  match run with
  | .error err => .error err
  | .ok out =>
    let lines := (Strings.split '\n' out.data).map String.mk
    .ok (contextsLoop 0 lines [])

/-! ## Fan-in (`main.go` 199-225)

`fanIn` on its own: every input channel is given by the values it delivers
before it is closed, the reader of `mplexStream` is always ready. -/

namespace FanIn

/-- Where a goroutine `mplex(c)` stands. -/
inductive Mplex where
  /-- at `for i := range c` -/
  | recv
  /-- in the `select`, with `i` in hand -/
  | send (i : Service)
  /-- returned: the deferred `wg.Done()` has run -/
  | done
  deriving DecidableEq, Repr

/-- State of `fanIn`: the number of channels, what every channel has still to
deliver before it is closed, the goroutines `mplex`, the counter of `wg`, the
values received from `mplexStream` with the goroutine that sent each, whether
`mplexStream` is closed, whether `done` is closed. -/
structure State where
  n : Nat
  chans : Nat → List Service
  mplex : Nat → Mplex
  wg : Nat
  out : List (Nat × Service)
  closed : Bool
  cancelled : Bool

/-- The actions of the goroutines of `fanIn`. -/
inductive Act where
  /-- goroutine `j` receives the next value of its channel -/
  | recv (j : Nat)
  /-- the channel of goroutine `j` is closed and empty: the `range` ends -/
  | finish (j : Nat)
  /-- the case `mplexStream <- i` of the `select` of goroutine `j` -/
  | send (j : Nat)
  /-- the case `<-done` of the `select` of goroutine `j` -/
  | cancel (j : Nat)
  /-- `wg.Wait()` returns and `mplexStream` is closed -/
  | close
  deriving DecidableEq, Repr

/-- One step of `fanIn`. -/
def step (s : State) : Act → Option State
  | .recv j =>
    if j < s.n then
      match s.mplex j, s.chans j with
      | .recv, i :: rest =>
        some { s with mplex := Function.update s.mplex j (.send i),
                      chans := Function.update s.chans j rest }
      | _, _ => none
    else none
  | .finish j =>
    if j < s.n then
      match s.mplex j, s.chans j with
      | .recv, [] => some { s with mplex := Function.update s.mplex j .done, wg := s.wg - 1 }
      | _, _ => none
    else none
  | .send j =>
    if j < s.n then
      match s.mplex j with
      | .send i =>
        some { s with mplex := Function.update s.mplex j .recv, out := s.out ++ [(j, i)] }
      | _ => none
    else none
  | .cancel j =>
    if j < s.n && s.cancelled then
      match s.mplex j with
      | .send _ => some { s with mplex := Function.update s.mplex j .done, wg := s.wg - 1 }
      | _ => none
    else none
  | .close =>
    if s.wg == 0 && !s.closed then some { s with closed := true } else none

/-- The call `fanIn(done, channels...)` with `done` open: `wg.Add(len(channels))`
and one goroutine for each channel. -/
def init (channels : List (List Service)) : State :=
  { n := channels.length
    chans := fun j => channels.getD j []
    mplex := fun _ => .recv
    wg := channels.length
    out := []
    closed := false
    cancelled := false }

/-- The values received from `mplexStream` that goroutine `j` sent, in order. -/
def emitted (s : State) (j : Nat) : List Service :=
  (s.out.filter (fun e => e.1 == j)).map Prod.snd

/-- The stream of `mplexStream`: the values received from it, in order. -/
def stream (s : State) : List Service :=
  s.out.map Prod.snd

end FanIn

/-! ## The pipeline of `main` (`main.go` 98-254)

`gen` feeds one channel of contexts; `len(kubeContexts)` pairs of goroutines
`getServiceListStage` and `getCertIssuerStage` read it; `fanIn` merges their
outputs and `main` collects the merged stream.  All channels are unbuffered. -/

namespace Pipeline

/-- What the outside world answers: `getServices` for the name of a context
and a namespace, and the world of the probe of every service. -/
structure Config where
  getServices : String → String → Except String (List Service)
  world : Service → World

/-- Where a goroutine of `getServiceListStage` stands. -/
inductive Disc where
  /-- at `for c := range incomingStream` -/
  | recv
  /-- in the `select` with `s` in hand, `svcs` being left to range over -/
  | send (c : Context) (s : Service) (svcs : List Service)
  /-- at `<-done`, after the error of `getServices` -/
  | waitDone
  /-- returned: `serviceStream` is closed -/
  | closed
  deriving DecidableEq, Repr

/-- Where a goroutine of `getCertIssuerStage` stands. -/
inductive Probe where
  /-- at `for s := range incomingStream` -/
  | recv
  /-- in the `select` with `s` in hand -/
  | send (s : Service)
  /-- in a call of `processService` that never returns -/
  | hung
  /-- returned: `serviceStream` is closed -/
  | closed
  deriving DecidableEq, Repr

/-- State of the pipeline. -/
structure State where
  /-- `len(kubeContexts)`, the number of pairs of stages -/
  n : Nat
  /-- the contexts the loop of `gen` has still to visit -/
  gen : List Context
  /-- `contextStream` is closed -/
  contextClosed : Bool
  /-- the goroutines of `getServiceListStage` -/
  disc : Nat → Disc
  /-- the goroutines of `getCertIssuerStage` -/
  probe : Nat → Probe
  /-- the goroutines `mplex` of `fanIn` -/
  mplex : Nat → FanIn.Mplex
  /-- the counter of `wg` -/
  wg : Nat
  /-- `mplexStream` is closed -/
  mplexClosed : Bool
  /-- `cs.Results` -/
  results : List Service
  /-- the loop `for x := range fanIn(...)` of `main` is over -/
  collected : Bool
  /-- `done` is closed: `main` has returned -/
  doneClosed : Bool
  /-- a goroutine has panicked: the program has stopped -/
  panicked : Bool
  /-- the counter `ttlSvcs` -/
  ttlSvcs : Nat
  /-- the counter `doneSvcs` -/
  doneSvcs : Int

/-- The actions of the goroutines of the pipeline. -/
inductive Act where
  /-- `gen`: a loop iteration on a context that fails the `if` -/
  | genSkip
  /-- `gen`: `contextStream <- kctx`, received by discovery goroutine `j` -/
  | genSend (j : Nat)
  /-- `gen`: the case `<-done` -/
  | genCancel
  /-- `gen`: the loop is over, `close(contextStream)` -/
  | genClose
  /-- discovery `j`: `contextStream` is closed, the `range` ends -/
  | discEnd (j : Nat)
  /-- discovery `j`: `serviceStream <- s`, received by probe goroutine `j` -/
  | discSend (j : Nat)
  /-- discovery `j`: a receive from `done` succeeds -/
  | discCancel (j : Nat)
  /-- probe `j`: its input is closed, the `range` ends -/
  | probeEnd (j : Nat)
  /-- probe `j`: `serviceStream <- s`, received by `mplex` goroutine `j` -/
  | probeSend (j : Nat)
  /-- probe `j`: the case `<-done` -/
  | probeCancel (j : Nat)
  /-- `mplex` `j`: its input is closed, the `range` ends (`wg.Done()`) -/
  | mplexEnd (j : Nat)
  /-- `mplex` `j`: `mplexStream <- i`, received by the loop of `main` -/
  | mplexSend (j : Nat)
  /-- `mplex` `j`: the case `<-done` -/
  | mplexCancel (j : Nat)
  /-- `wg.Wait()` returns and `mplexStream` is closed -/
  | closeOut
  /-- `main`: `mplexStream` is closed, the `range` ends -/
  | collectEnd
  /-- `main` returns: the deferred `close(done)` -/
  | mainReturn
  deriving DecidableEq, Repr

/-- Discovery: the loop `for _, s := range svcs` comes to its next service,
which is filled in and counted in `ttlSvcs`. -/
def nextService (c : Context) : List Service → Disc × Nat
  | [] => (.recv, 0)
  | s :: svcs =>
    (.send c { s with Error := "", StatusCode := 0, Context := c.Name, Namespace := c.Namespace }
      svcs, 1)

/-- Discovery: the body of the loop `for c := range incomingStream` up to its
first communication. -/
def onContext (cfg : Config) (c : Context) : Disc × Nat :=
  if c.Name != "" && c.Namespace != "" then
    match cfg.getServices c.Name c.Namespace with
    | .error _ => (.waitDone, 0)
    | .ok svcs => nextService c svcs
  else (.recv, 0)

/-- Probe: the body of the loop `for s := range incomingStream` up to the
`select`: the goroutine, whether the program panicked, and the change of
`doneSvcs`. -/
def onService (cfg : Config) (s : Service) : Probe × Bool × Int :=
  if s.StatusCode == 0 then
    match (processService (cfg.world s) s).outcome with
    | .ret ns => (.send ns, false, -1)
    | .panic _ => (.hung, true, 0)
    | .hang => (.hung, false, 0)
  else (.send s, false, 0)

/-- `atomic.AddUint32(&ttlSvcs, delta)`. -/
def addUint32 (x delta : Nat) : Nat :=
  (x + delta) % 2 ^ 32

/-- `atomic.AddInt32(&doneSvcs, delta)`. -/
def addInt32 (x delta : Int) : Int :=
  (x + delta + 2 ^ 31) % 2 ^ 32 - 2 ^ 31

/-- One step of the pipeline.  Nothing moves once the program has panicked. -/
def step (cfg : Config) (s : State) (a : Act) : Option State :=
  if s.panicked then none
  else
    match a with
    | .genSkip =>
      match s.contextClosed, s.gen with
      | false, kctx :: rest => if Gen.keep kctx then none else some { s with gen := rest }
      | _, _ => none
    | .genSend j =>
      match s.contextClosed, s.gen, s.disc j with
      | false, kctx :: rest, .recv =>
        if Gen.keep kctx && j < s.n then
          some { s with gen := rest
                        disc := Function.update s.disc j (onContext cfg kctx).1
                        ttlSvcs := addUint32 s.ttlSvcs (onContext cfg kctx).2 }
        else none
      | _, _, _ => none
    | .genCancel =>
      match s.contextClosed, s.gen with
      | false, kctx :: _ =>
        if Gen.keep kctx && s.doneClosed then some { s with gen := [], contextClosed := true }
        else none
      | _, _ => none
    | .genClose =>
      match s.contextClosed, s.gen with
      | false, [] => some { s with contextClosed := true }
      | _, _ => none
    | .discEnd j =>
      match s.disc j with
      | .recv =>
        if j < s.n && s.contextClosed then
          some { s with disc := Function.update s.disc j .closed }
        else none
      | _ => none
    | .discSend j =>
      match s.disc j, s.probe j with
      | .send c sv svcs, .recv =>
        if j < s.n then
          some { s with disc := Function.update s.disc j (nextService c svcs).1
                        ttlSvcs := addUint32 s.ttlSvcs (nextService c svcs).2
                        probe := Function.update s.probe j (onService cfg sv).1
                        panicked := (onService cfg sv).2.1
                        doneSvcs := addInt32 s.doneSvcs (onService cfg sv).2.2 }
        else none
      | _, _ => none
    | .discCancel j =>
      if j < s.n && s.doneClosed then
        match s.disc j with
        | .send _ _ _ => some { s with disc := Function.update s.disc j .closed }
        | .waitDone => some { s with disc := Function.update s.disc j .closed }
        | _ => none
      else none
    | .probeEnd j =>
      match s.probe j, s.disc j with
      | .recv, .closed =>
        if j < s.n then some { s with probe := Function.update s.probe j .closed } else none
      | _, _ => none
    | .probeSend j =>
      match s.probe j, s.mplex j with
      | .send sv, .recv =>
        if j < s.n then
          some { s with probe := Function.update s.probe j .recv
                        mplex := Function.update s.mplex j (.send sv) }
        else none
      | _, _ => none
    | .probeCancel j =>
      match s.probe j with
      | .send _ =>
        if j < s.n && s.doneClosed then
          some { s with probe := Function.update s.probe j .closed }
        else none
      | _ => none
    | .mplexEnd j =>
      match s.mplex j, s.probe j with
      | .recv, .closed =>
        if j < s.n then
          some { s with mplex := Function.update s.mplex j .done, wg := s.wg - 1 }
        else none
      | _, _ => none
    | .mplexSend j =>
      match s.mplex j with
      | .send i =>
        if j < s.n && !s.collected then
          some { s with mplex := Function.update s.mplex j .recv, results := s.results ++ [i] }
        else none
      | _ => none
    | .mplexCancel j =>
      match s.mplex j with
      | .send _ =>
        if j < s.n && s.doneClosed then
          some { s with mplex := Function.update s.mplex j .done, wg := s.wg - 1 }
        else none
      | _ => none
    | .closeOut =>
      if s.wg == 0 && !s.mplexClosed then some { s with mplexClosed := true } else none
    | .collectEnd =>
      if s.mplexClosed && !s.collected then some { s with collected := true } else none
    | .mainReturn =>
      if s.collected && !s.doneClosed then some { s with doneClosed := true } else none

/-- The pipeline as `main` sets it up for `kubeContexts`. -/
def init (kubeContexts : List Context) : State :=
  { n := kubeContexts.length
    gen := kubeContexts
    contextClosed := false
    disc := fun _ => .recv
    probe := fun _ => .recv
    mplex := fun _ => .recv
    wg := kubeContexts.length
    mplexClosed := false
    results := []
    collected := false
    doneClosed := false
    panicked := false
    ttlSvcs := 0
    doneSvcs := 0 }

end Pipeline

/-! ## Invariants and measures of the state machines -/

namespace Gen

/-- The invariant of `gen` while `done` is open, for the contexts `input`:
what was sent, followed by what the rest of the loop is to send, is what the
whole loop is to send. -/
def Inv (input : List Context) (s : State) : Prop :=
  s.cancelled = false ∧ s.sent ++ expected s.rest = expected input ∧
    (s.closed = true → s.rest = [])

/-- What `gen` has still to do: a bound on the steps it can take. -/
def measure (s : State) : Nat :=
  s.rest.length + (if s.closed then 0 else 1)

end Gen

namespace FanIn

/-- What a goroutine `mplex` has in hand. -/
def inHand : Mplex → List Service
  | .send i => [i]
  | _ => []

/-- One for a goroutine `mplex` that has not returned. -/
def running : Mplex → Nat
  | .done => 0
  | _ => 1

/-- The steps a goroutine `mplex` has still to take for what it has in hand. -/
def work : Mplex → Nat
  | .recv => 1
  | .send _ => 2
  | .done => 0

/-- The invariant of `fanIn` while `done` is open, for the input `channels`:
what a goroutine has sent, what it has in hand and what its channel has still
to deliver make up its input; a goroutine that returned has an empty channel;
the counter of `wg` counts the goroutines that have not returned; the output
is closed only at zero. -/
def Inv (channels : List (List Service)) (s : State) : Prop :=
  s.cancelled = false ∧ s.n = channels.length ∧
  (∀ j, j < s.n → emitted s j ++ inHand (s.mplex j) ++ s.chans j = channels.getD j []) ∧
  (∀ j, j < s.n → s.mplex j = .done → s.chans j = []) ∧
  (∀ e ∈ s.out, e.1 < s.n) ∧
  s.wg = ∑ j in Finset.range s.n, running (s.mplex j) ∧
  (s.closed = true → s.wg = 0)

/-- The steps goroutine `j` has still to take. -/
def workOf (s : State) (j : Nat) : Nat :=
  2 * (s.chans j).length + work (s.mplex j)

/-- A bound on the steps `fanIn` can still take. -/
def measure (s : State) : Nat :=
  (∑ j in Finset.range s.n, workOf s j) + (if s.closed then 0 else 1)

end FanIn

namespace Pipeline

/-- The invariant of the pipeline when `getServices` fails for the context
`bad`: `main` has not returned and is still collecting, the merged stream is
not closed; `bad` is still to be sent by `gen` and no discovery goroutine has
returned, or a discovery goroutine sits at `<-done`; a probe goroutine returns
after its discovery goroutine only, a goroutine `mplex` after its probe
goroutine only; the counter of `wg` counts the goroutines `mplex` that have
not returned. -/
def Stuck (bad : Context) (s : State) : Prop :=
  s.doneClosed = false ∧ s.collected = false ∧ s.mplexClosed = false ∧ 0 < s.n ∧
  ((bad ∈ s.gen ∧ s.contextClosed = false ∧ ∀ j, j < s.n → s.disc j ≠ .closed) ∨
    ∃ j, j < s.n ∧ s.disc j = .waitDone) ∧
  (∀ j, j < s.n → s.probe j = .closed → s.disc j = .closed) ∧
  (∀ j, j < s.n → s.mplex j = .done → s.probe j = .closed) ∧
  s.wg = ∑ j in Finset.range s.n, FanIn.running (s.mplex j)

end Pipeline

/-! ## Concrete inputs -/

/-- A service to probe, as the discovery stage sends it. -/
def apiService : Service :=
  { Name := "api", Port := "443", Context := "prod", Namespace := "default",
    CertIssuer := "", Error := "", StatusCode := 0 }

/-- A world in which the tunnel starts and reports that it forwards, the port
is open at the second poll and the handshake shows a certificate issued by
Let's Encrypt. -/
def healthyWorld : World :=
  { listen := .ok "40123"
    start := none
    output := .line "Forwarding from 127.0.0.1:40123 -> 443"
    polls := [false, true]
    dial := .ok ["CN=R3,O=Let's Encrypt,C=US"] }

/-- The world of `healthyWorld` but for the tunnel, whose output channel is
closed before any line is written. -/
def closedChannelWorld : World :=
  { healthyWorld with output := .closed }

/-- The context whose services cannot be listed. -/
def badContext : Context :=
  { Name := "staging", Namespace := "default", Status := "", StatusCode := 0 }

/-- The context with two healthy services. -/
def goodContext : Context :=
  { Name := "prod", Namespace := "default", Status := "", StatusCode := 0 }

/-- The answers of the outside world for the two contexts: `getServices` fails
for `staging` and lists `api` and `web` for any other context; every probe
meets `healthyWorld`. -/
def twoContexts : Pipeline.Config where
  getServices := fun kubeContext _ =>
    if kubeContext == "staging" then .error "connection refused"
    else .ok [{ Name := "api", Port := "443", Context := "", Namespace := "",
                CertIssuer := "", Error := "", StatusCode := 0 },
              { Name := "web", Port := "8443", Context := "", Namespace := "",
                CertIssuer := "", Error := "", StatusCode := 0 }]
  world := fun _ => healthyWorld

/-- A schedule for the two contexts: goroutine 0 takes `staging`, goroutine 1
takes `prod` and its two services go through the probe and the fan-in; then
every action that would end the run is attempted. -/
def twoContextsSchedule : List Pipeline.Act :=
  [.genSend 0, .genSend 1, .genClose,
   .discSend 1, .probeSend 1, .mplexSend 1,
   .discSend 1, .probeSend 1, .mplexSend 1,
   .discEnd 1, .probeEnd 1, .mplexEnd 1,
   .discEnd 0, .discCancel 0, .probeEnd 0, .mplexEnd 0,
   .closeOut, .collectEnd, .mainReturn]

/-- A schedule for the context `prod` alone: its two services go through the
probe and the fan-in, then every goroutine returns. -/
def oneContextSchedule : List Pipeline.Act :=
  [.genSend 0, .genClose,
   .discSend 0, .probeSend 0, .mplexSend 0,
   .discSend 0, .probeSend 0, .mplexSend 0,
   .discEnd 0, .probeEnd 0, .mplexEnd 0,
   .closeOut, .collectEnd, .mainReturn]

/-! ## Schedules: invariants and measures -/

theorem runSched_invariant {σ α : Type} (step : σ → α → Option σ) (P : σ → Prop)
    (hstep : ∀ s a s', P s → step s a = some s' → P s') :
    ∀ (acts : List α) (s : σ), P s → P (runSched step s acts) := by
  intro acts
  induction acts with
  | nil => intro s hs; simpa [runSched] using hs
  | cons a as ih =>
    intro s hs
    unfold runSched
    cases h : step s a with
    | none => exact ih s hs
    | some s' => exact ih s' (hstep s a s' hs h)

theorem effSteps_add_measure_le {σ α : Type} (step : σ → α → Option σ) (P : σ → Prop)
    (μ : σ → Nat) (hstep : ∀ s a s', P s → step s a = some s' → P s')
    (hμ : ∀ s a s', P s → step s a = some s' → μ s' < μ s) :
    ∀ (acts : List α) (s : σ), P s →
      effSteps step s acts + μ (runSched step s acts) ≤ μ s := by
  intro acts
  induction acts with
  | nil => intro s _; simp [runSched, effSteps]
  | cons a as ih =>
    intro s hs
    unfold runSched effSteps
    cases h : step s a with
    | none => exact ih s hs
    | some s' =>
      have h1 := ih s' (hstep s a s' hs h)
      have h2 := hμ s a s' hs h
      simp only
      omega

/-! ## The context source -/

namespace Gen

theorem gen_inv_init (input : List Context) : Inv input (init input) := by
  simp [Inv, init]

theorem gen_inv_step (input : List Context) (s : State) (a : Act) (s' : State)
    (hs : Inv input s) (h : step s a = some s') : Inv input s' := by
  obtain ⟨hc, he, hr⟩ := hs
  rcases s with ⟨rest, sent, closed, cancelled⟩
  simp only at hc he hr
  subst hc
  cases a <;> cases closed <;> cases rest <;> simp [step] at h
  all_goals (obtain ⟨hk, rfl⟩ := h; simp_all [Inv, expected, List.filter_cons])

theorem gen_measure_step (s : State) (a : Act) (s' : State)
    (h : step s a = some s') : measure s' < measure s := by
  rcases s with ⟨rest, sent, closed, cancelled⟩
  cases a <;> cases closed <;> cases rest <;> simp [step] at h
  all_goals (obtain ⟨hk, rfl⟩ := h; simp [measure])

theorem gen_progress (s : State) (hc : s.closed = false) : ∃ a, (step s a).isSome = true := by
  rcases s with ⟨rest, sent, closed, cancelled⟩
  simp only at hc
  subst hc
  cases rest with
  | nil => exact ⟨.close, by simp [step]⟩
  | cons c rest =>
    by_cases hk : keep c = true
    · exact ⟨.send, by simp [step, hk]⟩
    · exact ⟨.skip, by simp [step, hk]⟩

theorem gen_expected_eq (input : List Context) :
    expected input = input.filter (fun c => decide (c.Name ≠ "" ∧ c.Namespace ≠ "")) := by
  unfold expected
  congr 1
  funext c
  by_cases h1 : c.Name = "" <;> by_cases h2 : c.Namespace = "" <;> simp [keep, h1, h2]

end Gen

/-- C3 (Context Source).  With `done` open, under every schedule: the values
received from the stream of `gen` are the first ones of the contexts whose
`Name` and `Namespace` are both non-empty, in the order of the input and
unchanged; once the stream is closed they are all of them; a context with an
empty `Name` or `Namespace` is never among them; as long as the stream is not
closed `gen` can take a step, and it takes at most `len + 1` steps in all. -/
theorem gen_emits_the_named_contexts (kubeContext : List Context) (acts : List Gen.Act) :
    (∃ later, kubeContext.filter (fun c => decide (c.Name ≠ "" ∧ c.Namespace ≠ "")) =
        (runSched Gen.step (Gen.init kubeContext) acts).sent ++ later) ∧
    ((runSched Gen.step (Gen.init kubeContext) acts).closed = true →
      (runSched Gen.step (Gen.init kubeContext) acts).sent =
        kubeContext.filter (fun c => decide (c.Name ≠ "" ∧ c.Namespace ≠ ""))) ∧
    (∀ c ∈ (runSched Gen.step (Gen.init kubeContext) acts).sent,
      c.Name ≠ "" ∧ c.Namespace ≠ "") ∧
    ((runSched Gen.step (Gen.init kubeContext) acts).closed = false →
      ∃ a, (Gen.step (runSched Gen.step (Gen.init kubeContext) acts) a).isSome = true) ∧
    effSteps Gen.step (Gen.init kubeContext) acts ≤ kubeContext.length + 1 := by
  have hinv := runSched_invariant Gen.step (Gen.Inv kubeContext)
    (Gen.gen_inv_step kubeContext) acts _ (Gen.gen_inv_init kubeContext)
  have hm := effSteps_add_measure_le Gen.step (Gen.Inv kubeContext) Gen.measure
    (Gen.gen_inv_step kubeContext) (fun s a s' _ h => Gen.gen_measure_step s a s' h) acts _
    (Gen.gen_inv_init kubeContext)
  obtain ⟨_, he, hr⟩ := hinv
  rw [Gen.gen_expected_eq kubeContext] at he
  have hpre : ∃ later, kubeContext.filter (fun c => decide (c.Name ≠ "" ∧ c.Namespace ≠ "")) =
      (runSched Gen.step (Gen.init kubeContext) acts).sent ++ later := ⟨_, he.symm⟩
  refine ⟨hpre, ?_, ?_, Gen.gen_progress _, ?_⟩
  · intro hc
    rw [hr hc] at he
    simpa [Gen.expected] using he
  · intro c hc
    obtain ⟨later, hl⟩ := hpre
    have : c ∈ kubeContext.filter (fun c => decide (c.Name ≠ "" ∧ c.Namespace ≠ "")) := by
      rw [hl]; exact List.mem_append_left _ hc
    simpa using (List.mem_filter.mp this).2
  · have : Gen.measure (Gen.init kubeContext) = kubeContext.length + 1 := by
      simp [Gen.measure, Gen.init]
    omega

/-! ## The probe of one service -/

theorem doPrintf_no_percent (l : List Char) (h : '%' ∉ l) : Fmt.doPrintf 0 l = l := by
  induction l with
  | nil => rfl
  | cons c t ih =>
    have hc : c ≠ '%' := fun e => h (by simp [e])
    have ht : '%' ∉ t := fun e => h (List.mem_cons_of_mem _ e)
    simp [Fmt.doPrintf, hc, ih ht]

theorem Sprintf_no_percent (out : String) (h : '%' ∉ out.data) : Fmt.Sprintf out = out := by
  simp [Fmt.Sprintf, doPrintf_no_percent _ h]

theorem waitOpened_no_exit : ∀ (polls : List Bool) (polled : List Event),
    waitOpened polls = some polled → polled.count .exit = 0 ∧ polled ≠ [] := by
  intro polls
  induction polls with
  | nil => intro polled h; simp [waitOpened] at h
  | cons b polls ih =>
    intro polled h
    cases b with
    | true =>
      simp only [waitOpened, Option.some.injEq] at h
      subst h
      exact ⟨by decide, by simp⟩
    | false =>
      simp only [waitOpened] at h
      cases hq : waitOpened polls with
      | none => simp [hq] at h
      | some q =>
        simp only [hq, Option.some.injEq] at h
        subst h
        have := (ih q hq).1
        exact ⟨by simp [List.count_cons, this], by simp⟩

/-- The scenario of the spec: the healthy probe of `api` in `prod` reports
`Let's Encrypt`, with no error and status 0. -/
theorem healthy_probe :
    (processService healthyWorld apiService).outcome =
      .ret { apiService with CertIssuer := "Let's Encrypt" } := by
  decide

/-- C4.  The first line of the tunnel is the format of `fmt.Sprintf`, not its
operand: for the line `error: lost 100% of packets`, which holds `error`, the
probe returns 210 with an `Error` that is not the line, the `%` and what
follows it being read as a verb without operand. -/
theorem error_line_is_read_as_a_format :
    saysError "error: lost 100% of packets" = true ∧
    (processService { healthyWorld with output := .line "error: lost 100% of packets" }
        apiService).outcome =
      .ret { apiService with
        StatusCode := 210, Error := "error: lost 100%!o(MISSING)f packets" } ∧
    "error: lost 100%!o(MISSING)f packets" ≠ "error: lost 100% of packets" := by
  decide

/-- The 210 branch on a line without `%`: the line is reported as it is, the
tunnel is stopped once, the other fields are unchanged. -/
theorem error_line_without_percent (w : World) (s : Service) (port out : String)
    (hn : s.Name ≠ "docker-desktop") (hl : w.listen = .ok port) (hs : w.start = none)
    (ho : w.output = .line out) (he : saysError out = true) (hp : '%' ∉ out.data) :
    (processService w s).outcome = .ret { s with StatusCode := 210, Error := out } ∧
    (processService w s).events.count .exit = 1 := by
  unfold processService afterReceive portForward getPort
  simp [hn, hl, hs, ho, he, Sprintf_no_percent out hp, List.count_cons]

theorem error_line_without_percent_witness :
    (processService { healthyWorld with output := .line "Error: unable to forward" }
        apiService).outcome =
      .ret { apiService with StatusCode := 210, Error := "Error: unable to forward" } ∧
    (processService { healthyWorld with output := .line "Error: unable to forward" }
        apiService).events.count .exit = 1 :=
  error_line_without_percent { healthyWorld with output := .line "Error: unable to forward" }
    apiService "40123" "Error: unable to forward" (by decide) rfl rfl rfl (by decide) (by decide)

/-- C5.  When the tunnel cannot be set up, because `net.Listen` fails in
`getPort` or because the command does not start, the probe of a service that
is not `docker-desktop` returns nothing: it panics on a nil value. -/
theorem tunnel_failure_panics (w : World) (s : Service) (hn : s.Name ≠ "docker-desktop")
    (h : (∃ e, w.listen = .error e) ∨ (∃ e, w.start = some e)) :
    (processService w s).outcome = .panic nilDeref := by
  unfold processService afterReceive portForward getPort
  rcases h with ⟨e, he⟩ | ⟨e, he⟩
  · simp [hn, he]
  · cases hl : w.listen <;> simp [hn, he]

theorem tunnel_failure_panics_witness :
    (processService
        { healthyWorld with start := some "exec: \"kubectl\": executable file not found in $PATH" }
        apiService).outcome = .panic nilDeref :=
  tunnel_failure_panics
    { healthyWorld with start := some "exec: \"kubectl\": executable file not found in $PATH" }
    apiService (by decide) (Or.inr ⟨_, rfl⟩)

/-- C6.  When the output channel of the tunnel is closed before any line, the
branch `!ok` sets 220 and goes on: the port is polled, and the call hangs when
it never opens; when it opens the handshake is made, its error replaces the
220 by 230, and its certificate fills `CertIssuer` of the 220 result. -/
theorem closed_channel_is_not_terminal (w : World) (s : Service) (port : String)
    (hn : s.Name ≠ "docker-desktop") (hl : w.listen = .ok port) (hs : w.start = none)
    (ho : w.output = .closed) :
    (waitOpened w.polls = none → (processService w s).outcome = .hang) ∧
    (∀ polled, waitOpened w.polls = some polled →
      Event.dial ∈ (processService w s).events ∧
      (∀ err, w.dial = .error err →
        (processService w s).outcome = .ret { s with StatusCode := 230, Error := err }) ∧
      (∀ certInfo, getCertIssuer w "localhost" port = .ok certInfo →
        (processService w s).outcome =
          .ret { s with
            StatusCode := 220, Error := "output returned !OK",
            CertIssuer := mapIndex (reSubMatchMap issuerPattern certInfo) "issuer" })) := by
  have hne : saysError "" = false := by decide
  refine ⟨?_, ?_⟩
  · intro hw
    unfold processService afterReceive portForward getPort
    simp [hn, hl, hs, ho, hne, hw]
  · intro polled hw
    refine ⟨?_, ?_, ?_⟩
    · unfold processService afterReceive portForward getPort
      cases hd : getCertIssuer w "localhost" port <;> simp [hn, hl, hs, ho, hne, hw, hd]
    · intro err hd
      unfold processService afterReceive portForward getPort
      simp [hn, hl, hs, ho, hne, hw, getCertIssuer, hd]
    · intro certInfo hd
      unfold processService afterReceive portForward getPort
      simp [hn, hl, hs, ho, hne, hw, hd]

theorem closed_channel_is_not_terminal_witness :
    (waitOpened closedChannelWorld.polls = none →
      (processService closedChannelWorld apiService).outcome = .hang) ∧
    (∀ polled, waitOpened closedChannelWorld.polls = some polled →
      Event.dial ∈ (processService closedChannelWorld apiService).events ∧
      (∀ err, closedChannelWorld.dial = .error err →
        (processService closedChannelWorld apiService).outcome =
          .ret { apiService with StatusCode := 230, Error := err }) ∧
      (∀ certInfo, getCertIssuer closedChannelWorld "localhost" "40123" = .ok certInfo →
        (processService closedChannelWorld apiService).outcome =
          .ret { apiService with
            StatusCode := 220, Error := "output returned !OK",
            CertIssuer := mapIndex (reSubMatchMap issuerPattern certInfo) "issuer" })) :=
  closed_channel_is_not_terminal closedChannelWorld apiService "40123" (by decide) rfl rfl rfl

/-- The closed channel at a concrete input: the result is 220 with the issuer
of the certificate in it, and with a handshake that fails it is 230. -/
theorem closed_channel_results :
    (processService closedChannelWorld apiService).outcome =
      .ret { apiService with
        StatusCode := 220, Error := "output returned !OK", CertIssuer := "Let's Encrypt" } ∧
    (processService { closedChannelWorld with dial := .error "EOF" } apiService).outcome =
      .ret { apiService with StatusCode := 230, Error := "EOF" } ∧
    (processService { closedChannelWorld with polls := [] } apiService).outcome = .hang := by
  decide

/-- C7.  The group of `issuerPattern` is greedy: it runs from the first `O=`
to the last comma of the issuer, not to the next one, and an organization that
is the last attribute, with no comma after it, is not found at all. -/
theorem issuer_runs_to_the_last_comma :
    (processService
        { healthyWorld with dial := .ok ["CN=R3,O=Let's Encrypt,L=San Francisco,C=US"] }
        apiService).outcome =
      .ret { apiService with CertIssuer := "Let's Encrypt,L=San Francisco" } ∧
    (processService
        { healthyWorld with
          dial := .ok ["CN=Kubernetes Ingress Controller Fake Certificate,O=Acme Co"] }
        apiService).outcome =
      .ret { apiService with CertIssuer := "" } := by
  decide

/-- C8.  When the output channel of the tunnel is closed before any line and
the port opens, the call returns a result and `Exit` has been called twice on
the tunnel: once in the branch `!ok`, once more before the `return`. -/
theorem closed_channel_exits_twice (w : World) (s : Service) (port : String)
    (polled : List Event)
    (hn : s.Name ≠ "docker-desktop") (hl : w.listen = .ok port) (hs : w.start = none)
    (ho : w.output = .closed) (hw : waitOpened w.polls = some polled) :
    (∃ r, (processService w s).outcome = .ret r) ∧
    (processService w s).events.count .exit = 2 := by
  have hne : saysError "" = false := by decide
  have hc := (waitOpened_no_exit w.polls polled hw).1
  unfold processService afterReceive portForward getPort
  cases hd : getCertIssuer w "localhost" port <;>
    simp [hn, hl, hs, ho, hne, hw, hd, List.count_cons, List.count_append, hc]

theorem closed_channel_exits_twice_witness :
    (∃ r, (processService closedChannelWorld apiService).outcome = .ret r) ∧
    (processService closedChannelWorld apiService).events.count .exit = 2 :=
  closed_channel_exits_twice closedChannelWorld apiService "40123" [.poll, .sleep, .poll]
    (by decide) rfl rfl rfl (by decide)

/-- The exempt service: a service named `docker-desktop` gets 200 and the
error text `docker-desktop service` whatever the world, and nothing is done to
the world: no tunnel is started, `Exit` is not called. -/
theorem docker_desktop_is_exempt (w : World) (s : Service) (hn : s.Name = "docker-desktop") :
    processService w s =
      ⟨[], .ret { s with Error := "docker-desktop service", StatusCode := 200 }⟩ := by
  simp [processService, hn]

theorem docker_desktop_is_exempt_witness :
    processService healthyWorld { apiService with Name := "docker-desktop" } =
      ⟨[], .ret { apiService with
        Name := "docker-desktop", Error := "docker-desktop service", StatusCode := 200 }⟩ :=
  docker_desktop_is_exempt healthyWorld { apiService with Name := "docker-desktop" } rfl

/-- The probe when the tunnel writes a first line without `error` and the
port opens: a handshake error gives 230 with the text of the error; a handshake
that succeeds leaves status and error as they were and sets `CertIssuer` to
the group `issuer` of `issuerPattern` in the issuer string (empty when the
pattern does not match).  In both cases `Exit` is called once, as the last
event of the call. -/
theorem probe_after_first_line (w : World) (s : Service) (port out : String)
    (polled : List Event)
    (hn : s.Name ≠ "docker-desktop") (hl : w.listen = .ok port) (hs : w.start = none)
    (ho : w.output = .line out) (he : saysError out = false)
    (hw : waitOpened w.polls = some polled) :
    (∀ err, getCertIssuer w "localhost" port = .error err →
      (processService w s).outcome = .ret { s with Error := err, StatusCode := 230 }) ∧
    (∀ certInfo, getCertIssuer w "localhost" port = .ok certInfo →
      (processService w s).outcome =
        .ret { s with CertIssuer := mapIndex (reSubMatchMap issuerPattern certInfo) "issuer" }) ∧
    (∃ before, (processService w s).events = before ++ [Event.exit] ∧
      Event.exit ∉ before) := by
  have hc := (waitOpened_no_exit w.polls polled hw).1
  have hc' : Event.exit ∉ polled := List.count_eq_zero.mp hc
  refine ⟨?_, ?_, ?_⟩
  · intro err hd
    unfold processService afterReceive portForward getPort
    simp [hn, hl, hs, ho, he, hw, hd]
  · intro certInfo hd
    unfold processService afterReceive portForward getPort
    simp [hn, hl, hs, ho, he, hw, hd]
  · refine ⟨Event.start ["kubectl", "--context=" ++ s.Context, "port-forward",
      "svc/" ++ s.Name, port ++ ":" ++ "443"] :: (polled ++ [Event.dial]), ?_, ?_⟩
    · unfold processService afterReceive portForward getPort
      cases hd : getCertIssuer w "localhost" port <;>
        simp [hn, hl, hs, ho, he, hw, hd]
    · simp [hc']

theorem probe_after_first_line_witness :
    (∀ err, getCertIssuer healthyWorld "localhost" "40123" = .error err →
      (processService healthyWorld apiService).outcome =
        .ret { apiService with Error := err, StatusCode := 230 }) ∧
    (∀ certInfo, getCertIssuer healthyWorld "localhost" "40123" = .ok certInfo →
      (processService healthyWorld apiService).outcome =
        .ret { apiService with
          CertIssuer := mapIndex (reSubMatchMap issuerPattern certInfo) "issuer" }) ∧
    (∃ before, (processService healthyWorld apiService).events = before ++ [Event.exit] ∧
      Event.exit ∉ before) :=
  probe_after_first_line healthyWorld apiService "40123"
    "Forwarding from 127.0.0.1:40123 -> 443" [.poll, .sleep, .poll]
    (by decide) rfl rfl rfl (by decide) (by decide)

/-- Without a peer certificate the issuer string is empty, the pattern does not
match it and `CertIssuer` is empty; nothing else of the service changes. -/
theorem no_peer_certificate (w : World) (s : Service) (port out : String)
    (polled : List Event)
    (hn : s.Name ≠ "docker-desktop") (hl : w.listen = .ok port) (hs : w.start = none)
    (ho : w.output = .line out) (he : saysError out = false)
    (hw : waitOpened w.polls = some polled) (hd : w.dial = .ok []) :
    (processService w s).outcome = .ret { s with CertIssuer := "" } := by
  have hg : getCertIssuer w "localhost" port = .ok "" := by simp [getCertIssuer, hd]
  have hm : mapIndex (reSubMatchMap issuerPattern "") "issuer" = "" := by decide
  rw [(probe_after_first_line w s port out polled hn hl hs ho he hw).2.1 "" hg, hm]

theorem no_peer_certificate_witness :
    (processService { healthyWorld with dial := .ok [] } apiService).outcome =
      .ret { apiService with CertIssuer := "" } :=
  no_peer_certificate { healthyWorld with dial := .ok [] } apiService "40123"
    "Forwarding from 127.0.0.1:40123 -> 443" [.poll, .sleep, .poll]
    (by decide) rfl rfl rfl (by decide) (by decide) rfl

/-- JSON is chosen when `-json` is set and `-csv` is cleared, and only then. -/
theorem fileFmt_json_iff (f : Flags) :
    fileFmt f = "json" ↔ f.jsonFmt = true ∧ f.csvFmt = false := by
  rcases f with ⟨v, j, c, o⟩
  cases j <;> cases c <;> simp [fileFmt]

/-- C9.  With `-json` alone on the command line `-csv` keeps its default,
true, and the report is written as CSV. -/
theorem json_flag_alone_gives_csv :
    fileFmt { flagDefaults with jsonFmt := true } = "csv" := by
  decide

/-! ## The patterns and the list of contexts -/

namespace Regexp

theorem repGreedy_some {α : Type} (p : Char → Bool) :
    ∀ (s : List Char) (min pos : Nat) (k : Nat → List Char → Option α) (r : α),
      repGreedy p min pos s k = some r →
      ∃ n, min ≤ n ∧ n ≤ s.length ∧ (∀ c ∈ s.take n, p c = true) ∧
        k (pos + n) (s.drop n) = some r := by
  intro s
  induction s with
  | nil =>
    intro min pos k r h
    cases min with
    | zero => exact ⟨0, le_refl _, by simp, by simp, by simpa [repGreedy] using h⟩
    | succ m => simp [repGreedy] at h
  | cons c s ih =>
    intro min pos k r h
    cases min with
    | zero =>
      by_cases hp : p c = true
      · simp only [repGreedy, hp, if_true] at h
        cases hq : repGreedy p 0 (pos + 1) s k with
        | none =>
          rw [hq] at h
          exact ⟨0, le_refl _, by simp, by simp, by simpa using h⟩
        | some r' =>
          rw [hq] at h
          simp only [Option.some.injEq] at h
          subst h
          obtain ⟨n, _, hn, hall, hk⟩ := ih 0 (pos + 1) k r' hq
          refine ⟨n + 1, by omega, by simp; omega, ?_, ?_⟩
          · intro d hd
            simp only [List.take_succ_cons, List.mem_cons] at hd
            rcases hd with rfl | hd
            · exact hp
            · exact hall d hd
          · have : pos + (n + 1) = pos + 1 + n := by omega
            simpa [this] using hk
      · simp only [repGreedy, hp] at h
        exact ⟨0, le_refl _, by simp, by simp, by simpa using h⟩
    | succ m =>
      by_cases hp : p c = true
      · simp only [repGreedy, hp, if_true] at h
        obtain ⟨n, hm, hn, hall, hk⟩ := ih m (pos + 1) k r h
        refine ⟨n + 1, by omega, by simp; omega, ?_, ?_⟩
        · intro d hd
          simp only [List.take_succ_cons, List.mem_cons] at hd
          rcases hd with rfl | hd
          · exact hp
          · exact hall d hd
        · have : pos + (n + 1) = pos + 1 + n := by omega
          simpa [this] using hk
      · simp [repGreedy, hp] at h

end Regexp

open Regexp in
theorem search_contextPattern_later (s : List Char) :
    ∀ pos, 0 < pos → search contextPattern pos s = none := by
  induction s with
  | nil => intro pos hp; have : pos ≠ 0 := by omega
           simp [search, contextPattern, Re.run, this]
  | cons c s ih =>
    intro pos hp
    have : pos ≠ 0 := by omega
    simp only [search, ih (pos + 1) (by omega)]
    simp [contextPattern, Re.run, this]

open Regexp in
theorem search_contextPattern_group (s : List Char) (caps : Caps)
    (h : search contextPattern 0 s = some caps) :
    ∃ n, 3 ≤ n ∧ n ≤ s.length ∧ (∀ c ∈ s.take n, notPerlSpace c = true) ∧
      caps.lookup 1 = some (s.take n) ∧ ∃ g4, caps.lookup 4 = some g4 := by
  have hrun : contextPattern.run 0 s []
      (fun pos' _ caps => some ((0, s.take (pos' - 0)) :: caps)) = some caps := by
    cases s with
    | nil => simpa [search] using h
    | cons c s =>
      simp only [search] at h
      cases hq : contextPattern.run 0 (c :: s) []
          (fun pos' _ caps => some ((0, (c :: s).take (pos' - 0)) :: caps)) with
      | none =>
        rw [hq] at h
        simp [search_contextPattern_later s 1 (by omega)] at h
      | some r =>
        rw [hq] at h
        simp only [Option.some.injEq] at h
        subst h
        rfl
  simp only [contextPattern, Re.run, beq_self_eq_true, if_true] at hrun
  obtain ⟨n1, h1, h1l, h1a, hrun⟩ := repGreedy_some _ _ _ _ _ _ hrun
  obtain ⟨n2, -, -, -, hrun⟩ := repGreedy_some _ _ _ _ _ _ hrun
  obtain ⟨n3, -, -, -, hrun⟩ := repGreedy_some _ _ _ _ _ _ hrun
  obtain ⟨n4, -, -, -, hrun⟩ := repGreedy_some _ _ _ _ _ _ hrun
  obtain ⟨n5, -, -, -, hrun⟩ := repGreedy_some _ _ _ _ _ _ hrun
  obtain ⟨n6, -, -, -, hrun⟩ := repGreedy_some _ _ _ _ _ _ hrun
  obtain ⟨n7, -, -, -, hrun⟩ := repGreedy_some _ _ _ _ _ _ hrun
  split at hrun
  · simp only [Option.some.injEq] at hrun
    subst hrun
    refine ⟨n1, h1, h1l, h1a, ?_, ?_⟩
    · simp [List.lookup]
    · simp [List.lookup]
  · simp at hrun

theorem perlSpace_ne_star (w : Char) (hw : Regexp.perlSpace w = true) : w ≠ '*' := by
  intro h
  subst h
  revert hw
  decide

open Regexp in
theorem search_contextPattern_space (w : Char) (t : List Char) (hw : perlSpace w = true) :
    search contextPattern 0 (w :: t) = none := by
  simp only [search, search_contextPattern_later t 1 (by omega)]
  simp [contextPattern, Re.run, repGreedy, notPerlSpace, hw]

theorem contextOfLine_marked (l : String) (w : Char) (rest : List Char)
    (ht : Strings.trimSpace l.data = '*' :: w :: rest) (hw : Regexp.perlSpace w = true) :
    contextOfLine l = none := by
  have hne := perlSpace_ne_star w hw
  simp [contextOfLine, reSubMatchMap, Regexp.Re.FindStringSubmatch, ht, Strings.removeAll,
    List.filter_cons, hne, search_contextPattern_space w _ hw]

theorem contextOfLine_name (l : String) (c : Context) (h : contextOfLine l = some c) :
    3 ≤ c.Name.length ∧ ∀ ch ∈ c.Name.data, Regexp.perlSpace ch = false := by
  unfold contextOfLine reSubMatchMap Regexp.Re.FindStringSubmatch at h
  cases hs : Regexp.search contextPattern 0
      (Strings.removeAll '*' (Strings.trimSpace l.data)) with
  | none => simp [hs] at h
  | some caps =>
    obtain ⟨n, h3, hl, hall, h1, g4, h4⟩ := search_contextPattern_group _ caps hs
    have hnames : contextPattern.SubexpNames =
        ["", "context", "cluster", "authInfo", "namespace"] := by decide
    simp [hs, hnames, List.range_succ, subMatchLoop, StringMap.set, mapIndex, h1,
      List.lookup] at h
    subst h
    refine ⟨?_, ?_⟩
    · simp only [String.length, List.length_take]
      omega
    · intro ch hch
      have := hall ch hch
      simpa [Regexp.notPerlSpace] using this

theorem contextsLoop_mem (lines : List String) :
    ∀ (x : Nat) (contexts : List Context) (c : Context),
      c ∈ contextsLoop x lines contexts →
      c ∈ contexts ∨ ∃ l ∈ lines, contextOfLine l = some c := by
  induction lines with
  | nil => intro x contexts c h; exact Or.inl (by simpa [contextsLoop] using h)
  | cons l lines ih =>
    intro x contexts c h
    unfold contextsLoop at h
    split at h
    · rcases ih _ _ _ h with h | ⟨l', hl', hc⟩
      · exact Or.inl h
      · exact Or.inr ⟨l', List.mem_cons_of_mem _ hl', hc⟩
    · split at h
      · rcases ih _ _ _ h with h | ⟨l', hl', hc⟩
        · exact Or.inl h
        · exact Or.inr ⟨l', List.mem_cons_of_mem _ hl', hc⟩
      · rename_i c' hc'
        rcases ih _ _ _ h with h | ⟨l', hl', hc⟩
        · rcases List.mem_append.mp h with h | h
          · exact Or.inl h
          · simp only [List.mem_singleton] at h
            subst h
            exact Or.inr ⟨l, List.mem_cons_self _ _, hc'⟩
        · exact Or.inr ⟨l', List.mem_cons_of_mem _ hl', hc⟩

theorem getContexts_mem (out : String) (contexts : List Context)
    (h : getContexts (.ok out) = .ok contexts) (c : Context) (hc : c ∈ contexts) :
    ∃ l ∈ ((Strings.split '\n' out.data).map String.mk).tail, contextOfLine l = some c := by
  simp only [getContexts, Except.ok.injEq] at h
  subst h
  cases hl : (Strings.split '\n' out.data).map String.mk with
  | nil => simp [hl, contextsLoop] at hc
  | cons hd tl =>
    rw [hl] at hc
    simp only [contextsLoop, beq_self_eq_true, if_true] at hc
    rcases contextsLoop_mem tl _ _ c hc with h | h
    · simp at h
    · simpa using h

/-- C10, amended: whitespace is the class `\s` of the pattern.  In
`getContexts`, a line that after `strings.TrimSpace` begins with the marker
`*` of the current context followed by a rune of `\s` (space, tab, newline,
form feed, carriage return) gives no context; every context of the returned
slice comes from a line after the header that is no such line, and its `Name`
has three runes at least, none of them in `\s`. -/
theorem getContexts_skips_the_current_context :
    (∀ (l : String) (w : Char) (rest : List Char),
      Strings.trimSpace l.data = '*' :: w :: rest → Regexp.perlSpace w = true →
      contextOfLine l = none) ∧
    (∀ (out : String) (contexts : List Context),
      getContexts (.ok out) = .ok contexts → ∀ c ∈ contexts,
        (∃ l ∈ ((Strings.split '\n' out.data).map String.mk).tail,
          contextOfLine l = some c ∧
          ¬ ∃ w rest, Strings.trimSpace l.data = '*' :: w :: rest ∧
            Regexp.perlSpace w = true) ∧
        3 ≤ c.Name.length ∧ ∀ ch ∈ c.Name.data, Regexp.perlSpace ch = false) := by
  refine ⟨contextOfLine_marked, ?_⟩
  intro out contexts h c hc
  obtain ⟨l, hl, hlc⟩ := getContexts_mem out contexts h c hc
  refine ⟨⟨l, hl, hlc, ?_⟩, contextOfLine_name l c hlc⟩
  rintro ⟨w, rest, ht, hw⟩
  rw [contextOfLine_marked l w rest ht hw] at hlc
  exact Option.noConfusion hlc

/-- C10 as worded, with the whitespace of `strings.TrimSpace`, fails on the
code.  The line made of `*`, U+000B and `prod prod admin default` is left as
it is by `strings.TrimSpace` and begins with the marker followed by U+000B,
which `unicode.IsSpace` counts as a space; `[\S]` matches U+000B, the line
gives a context and `getContexts` returns it, with a `Name` that begins with
that space.  A context whose name holds U+00A0 is returned as well. -/
theorem marked_line_with_unicode_space_gives_a_context :
    Strings.trimSpace "*\x0bprod prod admin default".data =
      '*' :: Char.ofNat 0x0b :: "prod prod admin default".data ∧
    Strings.isSpace (Char.ofNat 0x0b) = true ∧
    contextOfLine "*\x0bprod prod admin default" =
      some { Name := "\x0bprod", Namespace := "default", Status := "", StatusCode := 0 } ∧
    getContexts (.ok ("CURRENT   NAME   CLUSTER   AUTHINFO   NAMESPACE\n" ++
        "*\x0bprod prod admin default")) =
      .ok [{ Name := "\x0bprod", Namespace := "default", Status := "", StatusCode := 0 }] ∧
    (∃ ch ∈ "\x0bprod".data, Strings.isSpace ch = true) ∧
    getContexts (.ok ("CURRENT   NAME   CLUSTER   AUTHINFO   NAMESPACE\n" ++
        "          my\xa0ctx   prod   admin   default")) =
      .ok [{ Name := "my\xa0ctx", Namespace := "default", Status := "", StatusCode := 0 }] ∧
    (∃ ch ∈ "my\xa0ctx".data, Strings.isSpace ch = true) := by
  decide

/-- The output of `kubectl config get-contexts` for two contexts, the first
one current: only the second is returned. -/
theorem getContexts_example :
    getContexts (.ok ("CURRENT   NAME       CLUSTER    AUTHINFO   NAMESPACE\n" ++
        "*         prod       prod       admin      default\n" ++
        "          staging    staging    admin      web")) =
      .ok [{ Name := "staging", Namespace := "web", Status := "", StatusCode := 0 }] := by
  decide

namespace Regexp

theorem repGreedy_none {α : Type} (p : Char → Bool) (k : Nat → List Char → Option α) :
    ∀ (s : List Char) (pos : Nat),
      (∀ n, n ≤ s.length → k (pos + n) (s.drop n) = none) →
      repGreedy p 0 pos s k = none := by
  intro s
  induction s with
  | nil => intro pos h; simpa [repGreedy] using h 0 (le_refl _)
  | cons c s ih =>
    intro pos h
    have h0 := h 0 (Nat.zero_le _)
    simp only [Nat.add_zero, List.drop_zero] at h0
    have hrec : repGreedy p 0 (pos + 1) s k = none := by
      apply ih
      intro n hn
      have := h (n + 1) (by simp; omega)
      have e : pos + 1 + n = pos + (n + 1) := by omega
      simpa [e] using this
    by_cases hp : p c = true
    · simp [repGreedy, hp, hrec, h0]
    · simp [repGreedy, hp, h0]

theorem repGreedy_longest {α : Type} (p : Char → Bool) (k : Nat → List Char → Option α) :
    ∀ (a rest : List Char) (pos : Nat) (r : α),
      (∀ c ∈ a, p c = true) →
      repGreedy p 0 (pos + a.length) rest k = some r →
      repGreedy p 0 pos (a ++ rest) k = some r := by
  intro a
  induction a with
  | nil => intro rest pos r _ h; simpa using h
  | cons c a ih =>
    intro rest pos r hall h
    have hc : p c = true := hall c (List.mem_cons_self _ _)
    have e : pos + 1 + a.length = pos + (c :: a).length := by simp; omega
    have := ih rest (pos + 1) r (fun d hd => hall d (List.mem_cons_of_mem _ hd))
      (by rw [e]; exact h)
    simp [repGreedy, hc, this]

end Regexp

open Regexp in
theorem search_issuerPattern_skip (rest : List Char) :
    ∀ (pre : List Char) (pos : Nat), 'O' ∉ pre →
      search issuerPattern pos (pre ++ rest) = search issuerPattern (pos + pre.length) rest := by
  intro pre
  induction pre with
  | nil => intro pos _; simp
  | cons c pre ih =>
    intro pos h
    have hc : c ≠ 'O' := fun e => h (by simp [e])
    have hp : 'O' ∉ pre := fun e => h (List.mem_cons_of_mem _ e)
    have e : pos + 1 + pre.length = pos + (c :: pre).length := by simp; omega
    have hrun : ∀ k, issuerPattern.run pos (c :: (pre ++ rest)) [] k = none := by
      intro k
      simp [issuerPattern, Re.run, hc]
    show search issuerPattern pos (c :: (pre ++ rest)) = _
    rw [search, hrun, ih (pos + 1) hp, e]

open Regexp in
theorem run_issuerPattern_at (org post : List Char) (pos : Nat)
    (horg : '\n' ∉ org) (hpost : ',' ∉ post) (k : Nat → List Char → Caps → Option Caps)
    (r : Caps) (hr : k (pos + 1 + 1 + org.length + 1) post [(1, org)] = some r) :
    issuerPattern.run pos ('O' :: '=' :: (org ++ ',' :: post)) [] k = some r := by
  simp only [issuerPattern, Re.run, beq_self_eq_true, if_true]
  have hdot : ∀ c ∈ org, dot c = true := by
    intro c hc
    have : c ≠ '\n' := fun e => horg (e ▸ hc)
    simp [dot, this]
  have hnone : repGreedy dot 0 (pos + 1 + 1 + org.length + 1) post
      (fun pos' s' =>
        match s' with
        | d :: t =>
          if (d == ',') = true then
            k (pos' + 1) t [(1, List.take (pos' - (pos + 1 + 1)) (org ++ ',' :: post))]
          else none
        | [] => none) = none := by
    apply repGreedy_none
    intro n _
    cases hd : post.drop n with
    | nil => rfl
    | cons d t =>
      have hmem : d ∈ post := List.mem_of_mem_drop (by rw [hd]; exact List.mem_cons_self _ _)
      have : d ≠ ',' := fun e => hpost (e ▸ hmem)
      simp [this]
  apply repGreedy_longest dot _ org (',' :: post) (pos + 1 + 1) r hdot
  have hcomma : dot ',' = true := by decide
  simp only [repGreedy, hcomma, if_true, hnone]
  simpa using hr

open Regexp in
/-- The text the group of `issuerPattern` takes: when no `O` comes before the
first `O=`, the text `org` after it holds no newline and is followed by a
comma after which no comma comes, the group is `org`, which runs to the last
comma. -/
theorem issuer_group (pre org post : List Char)
    (hpre : 'O' ∉ pre) (horg : '\n' ∉ org) (hpost : ',' ∉ post) :
    mapIndex (reSubMatchMap issuerPattern
      (String.mk (pre ++ 'O' :: '=' :: (org ++ ',' :: post)))) "issuer" = String.mk org := by
  have hs : search issuerPattern 0 (pre ++ 'O' :: '=' :: (org ++ ',' :: post)) =
      some [(0, 'O' :: '=' :: (org ++ [','])), (1, org)] := by
    rw [search_issuerPattern_skip _ pre 0 hpre, search]
    rw [run_issuerPattern_at org post (0 + pre.length) horg hpost _
      [(0, 'O' :: '=' :: (org ++ [','])), (1, org)]]
    have e : pre.length + 1 + 1 + org.length + 1 - pre.length = org.length + 1 + 1 + 1 := by
      omega
    have e2 : List.take (org.length + 1) (org ++ ',' :: post) = org ++ [','] := by
      rw [show org ++ ',' :: post = (org ++ [',']) ++ post by simp]
      exact List.take_left' (by simp)
    simp [e, List.take_succ_cons, e2]
  have hnames : issuerPattern.SubexpNames = ["", "issuer"] := by decide
  simp [reSubMatchMap, Re.FindStringSubmatch, hs, hnames, List.range_succ, subMatchLoop,
    StringMap.set, mapIndex, List.lookup]

theorem issuer_group_witness :
    mapIndex (reSubMatchMap issuerPattern
      (String.mk ("CN=R3,".data ++ 'O' :: '=' ::
        ("Let's Encrypt,L=San Francisco".data ++ ',' :: "C=US".data)))) "issuer" =
      String.mk "Let's Encrypt,L=San Francisco".data :=
  issuer_group "CN=R3,".data "Let's Encrypt,L=San Francisco".data "C=US".data
    (by decide) (by decide) (by decide)
/-! ## Fan-in -/

theorem sum_range_change (f g : Nat → Nat) (n j : Nat) (hj : j < n)
    (h : ∀ i, i ≠ j → g i = f i) :
    ∑ i in Finset.range n, g i + f j = ∑ i in Finset.range n, f i + g j := by
  have hm : j ∈ Finset.range n := Finset.mem_range.mpr hj
  rw [← Finset.add_sum_erase (Finset.range n) g hm, ← Finset.add_sum_erase (Finset.range n) f hm]
  have : ∑ i in (Finset.range n).erase j, g i = ∑ i in (Finset.range n).erase j, f i := by
    apply Finset.sum_congr rfl
    intro i hi
    exact h i (Finset.ne_of_mem_erase hi)
  omega

theorem sum_lengths_getD (channels : List (List Service)) :
    (channels.map List.length).sum =
      ∑ j in Finset.range channels.length, (channels.getD j []).length := by
  induction channels with
  | nil => simp
  | cons c cs ih =>
    rw [List.length_cons, Finset.sum_range_succ']
    simp [ih]
    omega

theorem length_eq_sum_by_tag (out : List (Nat × Service)) (n : Nat)
    (h : ∀ e ∈ out, e.1 < n) :
    out.length =
      ∑ j in Finset.range n, ((out.filter (fun e => e.1 == j)).map Prod.snd).length := by
  induction out with
  | nil => simp
  | cons e out ih =>
    have h1 : e.1 < n := h e (List.mem_cons_self _ _)
    have h2 := ih (fun e' he' => h e' (List.mem_cons_of_mem _ he'))
    have h3 : ∀ j, (((e :: out).filter (fun e' => e'.1 == j)).map Prod.snd).length =
        ((out.filter (fun e' => e'.1 == j)).map Prod.snd).length + (if e.1 = j then 1 else 0) := by
      intro j
      by_cases hj : e.1 = j <;> simp [List.filter_cons, hj]
    simp only [h3, Finset.sum_add_distrib, Finset.sum_ite_eq, Finset.mem_range, h1, if_true,
      List.length_cons]
    omega

namespace FanIn

theorem fanIn_running_recv : running .recv = 1 := rfl

theorem fanIn_running_send (i : Service) : running (.send i) = 1 := rfl

theorem fanIn_running_done : running .done = 0 := rfl

theorem fanIn_work_recv : work .recv = 1 := rfl

theorem fanIn_work_send (i : Service) : work (.send i) = 2 := rfl

theorem fanIn_work_done : work .done = 0 := rfl

theorem fanIn_running_sum_update (mplex : Nat → Mplex) (n j : Nat) (hj : j < n) (m : Mplex) :
    ∑ k in Finset.range n, running (Function.update mplex j m k) + running (mplex j) =
      ∑ k in Finset.range n, running (mplex k) + running m := by
  have := sum_range_change (fun k => running (mplex k))
    (fun k => running (Function.update mplex j m k)) n j hj
    (by intro k hk; simp [Function.update, hk])
  simpa using this

theorem fanIn_emitted_append (s : State) (j j' : Nat) (i : Service) (mplex : Nat → Mplex) :
    emitted { s with mplex := mplex, out := s.out ++ [(j, i)] } j' =
      emitted s j' ++ (if j = j' then [i] else []) := by
  by_cases h : j = j' <;> simp [emitted, List.filter_append, List.filter_cons, h]

theorem fanIn_inv_init (channels : List (List Service)) : Inv channels (init channels) := by
  refine ⟨rfl, rfl, ?_, ?_, ?_, ?_, ?_⟩
  · intro j _; simp [init, emitted, inHand]
  · intro j _ h; simp [init] at h
  · intro e he; simp [init] at he
  · simp [init, running]
  · intro h; simp [init] at h

theorem fanIn_inv_step (channels : List (List Service)) (s : State) (a : Act) (s' : State)
    (hs : Inv channels s) (h : step s a = some s') : Inv channels s' := by
  obtain ⟨hc, hn, hch, hdone, htag, hwg, hcl⟩ := hs
  cases a with
  | recv j =>
    simp only [step] at h
    split at h
    · rename_i hj
      split at h
      · rename_i i rest hm hcj
        simp only [Option.some.injEq] at h
        subst h
        refine ⟨hc, hn, ?_, ?_, htag, ?_, hcl⟩
        · intro j' hj'
          have := hch j' hj'
          by_cases e : j' = j
          · subst e
            simpa [emitted, inHand, hm, hcj] using this
          · simpa [emitted, Function.update, e] using this
        · intro j' hj' hd
          by_cases e : j' = j
          · subst e; simp at hd
          · simp only [Function.update, e, dite_false] at hd ⊢
            simpa using hdone j' hj' hd
        · have := fanIn_running_sum_update s.mplex s.n j hj (.send i)
          rw [hm] at this
          simp only [fanIn_running_recv, fanIn_running_send, fanIn_running_done] at this
          rw [hwg]
          dsimp only
          omega
      · simp at h
    · simp at h
  | finish j =>
    simp only [step] at h
    split at h
    · rename_i hj
      split at h
      · rename_i hm hcj
        simp only [Option.some.injEq] at h
        subst h
        refine ⟨hc, hn, ?_, ?_, htag, ?_, ?_⟩
        · intro j' hj'
          have := hch j' hj'
          by_cases e : j' = j
          · subst e
            simpa [emitted, inHand, hm, hcj] using this
          · simpa [emitted, Function.update, e] using this
        · intro j' hj' hd
          by_cases e : j' = j
          · subst e; exact hcj
          · simp only [Function.update, e, dite_false] at hd
            exact hdone j' hj' hd
        · have := fanIn_running_sum_update s.mplex s.n j hj .done
          rw [hm] at this
          simp only [fanIn_running_recv, fanIn_running_send, fanIn_running_done] at this
          dsimp only
          omega
        · intro hclosed
          have := hcl hclosed
          dsimp only
          omega
      · simp at h
    · simp at h
  | send j =>
    simp only [step] at h
    split at h
    · rename_i hj
      split at h
      · rename_i i hm
        simp only [Option.some.injEq] at h
        subst h
        refine ⟨hc, hn, ?_, ?_, ?_, ?_, hcl⟩
        · intro j' hj'
          have := hch j' hj'
          rw [fanIn_emitted_append]
          by_cases e : j' = j
          · subst e
            simpa [inHand, hm] using this
          · have e' : ¬ j = j' := fun x => e x.symm
            simpa [Function.update, e, e'] using this
        · intro j' hj' hd
          by_cases e : j' = j
          · subst e; simp at hd
          · simp only [Function.update, e, dite_false] at hd
            exact hdone j' hj' hd
        · intro e he
          rcases List.mem_append.mp he with he | he
          · exact htag e he
          · simp only [List.mem_singleton] at he
            subst he
            exact hj
        · have := fanIn_running_sum_update s.mplex s.n j hj .recv
          rw [hm] at this
          simp only [fanIn_running_recv, fanIn_running_send, fanIn_running_done] at this
          rw [hwg]
          dsimp only
          omega
      · simp at h
    · simp at h
  | cancel j =>
    simp [step, hc] at h
  | close =>
    simp only [step] at h
    split at h
    · rename_i hw
      simp only [Option.some.injEq] at h
      subst h
      simp only [Bool.and_eq_true, beq_iff_eq] at hw
      exact ⟨hc, hn, hch, hdone, htag, hwg, fun _ => hw.1⟩
    · simp at h

theorem fanIn_workOf_sum_change (s s' : State) (j : Nat) (hn : s'.n = s.n) (hj : j < s.n)
    (h : ∀ k, k ≠ j → workOf s' k = workOf s k) :
    ∑ k in Finset.range s'.n, workOf s' k + workOf s j =
      ∑ k in Finset.range s.n, workOf s k + workOf s' j := by
  rw [hn]
  exact sum_range_change (workOf s) (workOf s') s.n j hj h

theorem fanIn_measure_step (s : State) (a : Act) (s' : State)
    (h : step s a = some s') : measure s' < measure s := by
  cases a with
  | recv j =>
    simp only [step] at h
    split at h
    · rename_i hj
      split at h
      · rename_i i rest hm hcj
        simp only [Option.some.injEq] at h
        have hn' : s'.n = s.n := by rw [← h]
        have hc' : s'.chans = Function.update s.chans j rest := by rw [← h]
        have hm' : s'.mplex = Function.update s.mplex j (.send i) := by rw [← h]
        have hcl' : s'.closed = s.closed := by rw [← h]
        have := fanIn_workOf_sum_change s s' j hn' hj
          (by intro k hk; simp [workOf, hc', hm', Function.update, hk])
        have e1 : workOf s j = 2 * (rest.length + 1) + 1 := by
          simp only [workOf, hm, hcj, fanIn_work_recv, List.length_cons]
        have e2 : workOf s' j = 2 * rest.length + 2 := by
          simp only [workOf, hc', hm', Function.update_same, fanIn_work_send]
        rw [e1, e2] at this
        unfold measure
        rw [hcl']
        omega
      · simp at h
    · simp at h
  | finish j =>
    simp only [step] at h
    split at h
    · rename_i hj
      split at h
      · rename_i hm hcj
        simp only [Option.some.injEq] at h
        have hn' : s'.n = s.n := by rw [← h]
        have hc' : s'.chans = s.chans := by rw [← h]
        have hm' : s'.mplex = Function.update s.mplex j .done := by rw [← h]
        have hcl' : s'.closed = s.closed := by rw [← h]
        have := fanIn_workOf_sum_change s s' j hn' hj
          (by intro k hk; simp [workOf, hc', hm', Function.update, hk])
        have e1 : workOf s j = 1 := by
          simp only [workOf, hm, hcj, fanIn_work_recv, List.length_nil]
        have e2 : workOf s' j = 0 := by
          simp only [workOf, hc', hm', Function.update_same, fanIn_work_done, hcj, List.length_nil]
        rw [e1, e2] at this
        unfold measure
        rw [hcl']
        omega
      · simp at h
    · simp at h
  | send j =>
    simp only [step] at h
    split at h
    · rename_i hj
      split at h
      · rename_i i hm
        simp only [Option.some.injEq] at h
        have hn' : s'.n = s.n := by rw [← h]
        have hc' : s'.chans = s.chans := by rw [← h]
        have hm' : s'.mplex = Function.update s.mplex j .recv := by rw [← h]
        have hcl' : s'.closed = s.closed := by rw [← h]
        have := fanIn_workOf_sum_change s s' j hn' hj
          (by intro k hk; simp [workOf, hc', hm', Function.update, hk])
        have e1 : workOf s j = 2 * (s.chans j).length + 2 := by
          simp only [workOf, hm, fanIn_work_send]
        have e2 : workOf s' j = 2 * (s.chans j).length + 1 := by
          simp only [workOf, hc', hm', Function.update_same, fanIn_work_recv]
        rw [e1, e2] at this
        unfold measure
        rw [hcl']
        omega
      · simp at h
    · simp at h
  | cancel j =>
    simp only [step] at h
    split at h
    · rename_i hj
      simp only [Bool.and_eq_true, decide_eq_true_eq] at hj
      split at h
      · rename_i i hm
        simp only [Option.some.injEq] at h
        have hn' : s'.n = s.n := by rw [← h]
        have hc' : s'.chans = s.chans := by rw [← h]
        have hm' : s'.mplex = Function.update s.mplex j .done := by rw [← h]
        have hcl' : s'.closed = s.closed := by rw [← h]
        have := fanIn_workOf_sum_change s s' j hn' hj.1
          (by intro k hk; simp [workOf, hc', hm', Function.update, hk])
        have e1 : workOf s j = 2 * (s.chans j).length + 2 := by
          simp only [workOf, hm, fanIn_work_send]
        have e2 : workOf s' j = 2 * (s.chans j).length := by
          simp only [workOf, hc', hm', Function.update_same, fanIn_work_done, Nat.add_zero]
        rw [e1, e2] at this
        unfold measure
        rw [hcl']
        omega
      · simp at h
    · simp at h
  | close =>
    simp only [step] at h
    split at h
    · rename_i hw
      simp only [Option.some.injEq] at h
      subst h
      simp only [Bool.and_eq_true, beq_iff_eq, Bool.not_eq_true'] at hw
      simp [measure, workOf, hw.2]
    · simp at h

theorem fanIn_progress (channels : List (List Service)) (s : State) (hs : Inv channels s)
    (hc : s.closed = false) : ∃ a, (step s a).isSome = true := by
  obtain ⟨_, _, _, _, _, hwg, _⟩ := hs
  by_cases hw : s.wg = 0
  · exact ⟨.close, by simp [step, hw, hc]⟩
  · rw [hwg] at hw
    obtain ⟨j, hj, hr⟩ := Finset.exists_ne_zero_of_sum_ne_zero hw
    have hj' : j < s.n := Finset.mem_range.mp hj
    cases hm : s.mplex j with
    | done => simp [hm, running] at hr
    | send i => exact ⟨.send j, by simp [step, hj', hm]⟩
    | recv =>
      cases hcj : s.chans j with
      | nil => exact ⟨.finish j, by simp [step, hj', hm, hcj]⟩
      | cons i rest => exact ⟨.recv j, by simp [step, hj', hm, hcj]⟩

theorem fanIn_closed_all (channels : List (List Service)) (s : State) (hs : Inv channels s)
    (hc : s.closed = true) (j : Nat) (hj : j < s.n) :
    s.mplex j = .done ∧ s.chans j = [] ∧ emitted s j = channels.getD j [] := by
  obtain ⟨_, _, hch, hdone, _, hwg, hcl⟩ := hs
  have h0 := hcl hc
  rw [hwg] at h0
  have hz := (Finset.sum_eq_zero_iff.mp h0) j (Finset.mem_range.mpr hj)
  have hd : s.mplex j = .done := by
    cases hm : s.mplex j <;> simp [hm, running] at hz ⊢
  have hcj := hdone j hj hd
  have := hch j hj
  rw [hd, hcj] at this
  exact ⟨hd, hcj, by simpa [inHand] using this⟩

end FanIn

theorem FanIn.fanIn_measure_init (channels : List (List Service)) :
    FanIn.measure (FanIn.init channels) =
      2 * (channels.map List.length).sum + channels.length + 1 := by
  have : ∑ j in Finset.range channels.length, FanIn.workOf (FanIn.init channels) j =
      2 * ∑ j in Finset.range channels.length, (channels.getD j []).length +
        channels.length := by
    simp [FanIn.workOf, FanIn.init, FanIn.work, Finset.sum_add_distrib, Finset.mul_sum]
  rw [sum_lengths_getD]
  unfold FanIn.measure
  rw [show (FanIn.init channels).n = channels.length from rfl, this]
  simp [FanIn.init]

/-- C2 (fan-in completeness).  `fanIn` over `channels`, input `j` delivering
the values `channels[j]` and being closed then, `done` open, under every
schedule: the values received from the merged stream that came through input
`j` are the first ones of `channels[j]`, in the order of the input; once the
merged stream is closed every input is empty and seen closed by its goroutine,
every value of every input has been received, and their number is the sum of
the lengths; as long as the merged stream is open some goroutine can take a
step, and no schedule takes more than `2 * sum + N + 1` steps. -/
theorem fanIn_emits_every_item (channels : List (List Service)) (acts : List FanIn.Act) :
    (∀ j, j < channels.length →
      ∃ later, channels.getD j [] =
        FanIn.emitted (runSched FanIn.step (FanIn.init channels) acts) j ++ later) ∧
    (∀ e ∈ (runSched FanIn.step (FanIn.init channels) acts).out, e.1 < channels.length) ∧
    ((runSched FanIn.step (FanIn.init channels) acts).closed = true →
      (∀ j, j < channels.length →
        (runSched FanIn.step (FanIn.init channels) acts).chans j = [] ∧
        (runSched FanIn.step (FanIn.init channels) acts).mplex j = .done ∧
        FanIn.emitted (runSched FanIn.step (FanIn.init channels) acts) j =
          channels.getD j []) ∧
      (FanIn.stream (runSched FanIn.step (FanIn.init channels) acts)).length =
        (channels.map List.length).sum) ∧
    ((runSched FanIn.step (FanIn.init channels) acts).closed = false →
      ∃ a, (FanIn.step (runSched FanIn.step (FanIn.init channels) acts) a).isSome = true) ∧
    effSteps FanIn.step (FanIn.init channels) acts ≤
      2 * (channels.map List.length).sum + channels.length + 1 := by
  have hinv := runSched_invariant FanIn.step (FanIn.Inv channels)
    (FanIn.fanIn_inv_step channels) acts _ (FanIn.fanIn_inv_init channels)
  have hm := effSteps_add_measure_le FanIn.step (FanIn.Inv channels) FanIn.measure
    (FanIn.fanIn_inv_step channels) (fun s a s' _ h => FanIn.fanIn_measure_step s a s' h) acts _
    (FanIn.fanIn_inv_init channels)
  rw [FanIn.fanIn_measure_init] at hm
  have hn := hinv.2.1
  have hch := hinv.2.2.1
  have htag := hinv.2.2.2.2.1
  refine ⟨?_, ?_, ?_, FanIn.fanIn_progress channels _ hinv, by omega⟩
  · intro j hj
    have := hch j (by omega)
    exact ⟨_, by rw [← this, List.append_assoc]⟩
  · intro e he
    have := htag e he
    omega
  · intro hc
    have hall : ∀ j, j < channels.length →
        (runSched FanIn.step (FanIn.init channels) acts).chans j = [] ∧
        (runSched FanIn.step (FanIn.init channels) acts).mplex j = .done ∧
        FanIn.emitted (runSched FanIn.step (FanIn.init channels) acts) j =
          channels.getD j [] := by
      intro j hj
      obtain ⟨h1, h2, h3⟩ := FanIn.fanIn_closed_all channels _ hinv hc j (by omega)
      exact ⟨h2, h1, h3⟩
    refine ⟨hall, ?_⟩
    have hlen := length_eq_sum_by_tag _ _ htag
    rw [hn] at hlen
    rw [sum_lengths_getD, FanIn.stream, List.length_map, hlen]
    apply Finset.sum_congr rfl
    intro j hj
    have := (hall j (Finset.mem_range.mp hj)).2.2
    unfold FanIn.emitted at this
    rw [this]
/-! ## The pipeline -/

namespace Pipeline

theorem onContext_ne_closed (cfg : Config) (c : Context) : (onContext cfg c).1 ≠ .closed := by
  unfold onContext
  split
  · split
    · simp
    · rename_i svcs _
      cases svcs <;> simp [nextService]
  · simp

theorem nextService_ne_closed (c : Context) (svcs : List Service) :
    (nextService c svcs).1 ≠ .closed := by
  cases svcs <;> simp [nextService]

theorem onService_ne_closed (cfg : Config) (sv : Service) : (onService cfg sv).1 ≠ .closed := by
  unfold onService
  split
  · split <;> simp
  · simp

theorem onContext_bad (cfg : Config) (bad : Context) (err : String)
    (hk : Gen.keep bad = true)
    (herr : cfg.getServices bad.Name bad.Namespace = .error err) :
    (onContext cfg bad).1 = .waitDone := by
  unfold Gen.keep at hk
  simp [onContext, hk, herr]

theorem stuck_init (bad : Context) (kubeContexts : List Context) (h : bad ∈ kubeContexts) :
    Stuck bad (init kubeContexts) := by
  refine ⟨rfl, rfl, rfl, ?_, Or.inl ⟨h, rfl, ?_⟩, ?_, ?_, ?_⟩
  · exact List.length_pos_of_mem h
  · intro j _; simp [init]
  · intro j _ hp; simp [init] at hp
  · intro j _ hp; simp [init] at hp
  · simp [init, FanIn.running]

theorem stuck_step (cfg : Config) (bad : Context) (err : String)
    (hk : Gen.keep bad = true)
    (herr : cfg.getServices bad.Name bad.Namespace = .error err)
    (s : State) (a : Act) (s' : State)
    (hs : Stuck bad s) (h : step cfg s a = some s') : Stuck bad s' := by
  obtain ⟨hd, hcol, hmc, hn, hbad, h5, h6, hwg⟩ := hs
  unfold step at h
  split at h
  · simp at h
  cases a with
  | genSkip =>
    simp only at h
    split at h
    · rename_i kctx rest hcc hg
      split at h
      · simp at h
      · rename_i hkk
        simp only [Option.some.injEq] at h
        subst h
        refine ⟨hd, hcol, hmc, hn, ?_, h5, h6, hwg⟩
        rcases hbad with ⟨hb, hc, hall⟩ | hw
        · left
          refine ⟨?_, hc, hall⟩
          rw [hg] at hb
          rcases List.mem_cons.mp hb with e | e
          · subst e; exact absurd hk hkk
          · exact e
        · exact Or.inr hw
    · simp at h
  | genSend j =>
    simp only at h
    split at h
    · rename_i kctx rest hcc hg hdj
      split at h
      · rename_i hcond
        simp only [Bool.and_eq_true, decide_eq_true_eq] at hcond
        obtain ⟨hkk, hj⟩ := hcond
        simp only [Option.some.injEq] at h
        subst h
        have hpj : s.probe j ≠ .closed := fun e => by
          have := h5 j hj e
          rw [hdj] at this
          exact Disc.noConfusion this
        refine ⟨hd, hcol, hmc, hn, ?_, ?_, h6, hwg⟩
        · rcases hbad with ⟨hb, hc, hall⟩ | ⟨j0, hj0, hw⟩
          · rw [hg] at hb
            rcases List.mem_cons.mp hb with e | e
            · subst e
              right
              exact ⟨j, hj, by simp [onContext_bad cfg bad err hk herr]⟩
            · left
              refine ⟨e, hc, ?_⟩
              intro j' hj'
              by_cases e' : j' = j
              · subst e'
                simpa using onContext_ne_closed cfg kctx
              · simpa [Function.update, e'] using hall j' hj'
          · right
            refine ⟨j0, hj0, ?_⟩
            have : j0 ≠ j := fun e => by rw [e, hdj] at hw; exact Disc.noConfusion hw
            simpa [Function.update, this] using hw
        · intro j' hj' hp
          by_cases e' : j' = j
          · subst e'
            exact absurd hp hpj
          · simpa [Function.update, e'] using h5 j' hj' hp
      · simp at h
    · simp at h
  | genCancel =>
    simp only at h
    split at h
    · simp [hd] at h
    · simp at h
  | genClose =>
    simp only at h
    split at h
    · rename_i hcc hg
      simp only [Option.some.injEq] at h
      subst h
      refine ⟨hd, hcol, hmc, hn, ?_, h5, h6, hwg⟩
      rcases hbad with ⟨hb, _, _⟩ | hw
      · rw [hg] at hb
        simp at hb
      · exact Or.inr hw
    · simp at h
  | discEnd j =>
    simp only at h
    split at h
    · rename_i hdj
      split at h
      · rename_i hcond
        simp only [Bool.and_eq_true, decide_eq_true_eq] at hcond
        obtain ⟨hj, hcc⟩ := hcond
        simp only [Option.some.injEq] at h
        subst h
        refine ⟨hd, hcol, hmc, hn, ?_, ?_, h6, hwg⟩
        · rcases hbad with ⟨_, hc, _⟩ | ⟨j0, hj0, hw⟩
          · rw [hcc] at hc
            exact Bool.noConfusion hc
          · right
            refine ⟨j0, hj0, ?_⟩
            have : j0 ≠ j := fun e => by rw [e, hdj] at hw; exact Disc.noConfusion hw
            simpa [Function.update, this] using hw
        · intro j' hj' hp
          by_cases e' : j' = j
          · subst e'
            simp
          · simpa [Function.update, e'] using h5 j' hj' hp
      · simp at h
    · simp at h
  | discSend j =>
    simp only at h
    split at h
    · rename_i c sv svcs hdj hpj
      split at h
      · rename_i hj
        simp only [Option.some.injEq] at h
        subst h
        have hmj : s.mplex j ≠ .done := fun e => by
          have := h6 j hj e
          rw [hpj] at this
          exact Probe.noConfusion this
        refine ⟨hd, hcol, hmc, hn, ?_, ?_, ?_, hwg⟩
        · rcases hbad with ⟨hb, hc, hall⟩ | ⟨j0, hj0, hw⟩
          · left
            refine ⟨hb, hc, ?_⟩
            intro j' hj'
            by_cases e' : j' = j
            · subst e'
              simpa using nextService_ne_closed c svcs
            · simpa [Function.update, e'] using hall j' hj'
          · right
            refine ⟨j0, hj0, ?_⟩
            have : j0 ≠ j := fun e => by rw [e, hdj] at hw; exact Disc.noConfusion hw
            simpa [Function.update, this] using hw
        · intro j' hj' hp
          by_cases e' : j' = j
          · subst e'
            simp only [Function.update_same] at hp
            exact absurd hp (onService_ne_closed cfg sv)
          · simp only [Function.update, e', dite_false] at hp ⊢
            exact h5 j' hj' hp
        · intro j' hj' hm
          by_cases e' : j' = j
          · subst e'
            exact absurd hm hmj
          · simp only [Function.update, e', dite_false]
            exact h6 j' hj' hm
      · simp at h
    · simp at h
  | discCancel j =>
    simp [hd] at h
  | probeEnd j =>
    simp only at h
    split at h
    · rename_i hpj hdj
      split at h
      · rename_i hj
        simp only [Option.some.injEq] at h
        subst h
        refine ⟨hd, hcol, hmc, hn, hbad, ?_, ?_, hwg⟩
        · intro j' hj' hp
          by_cases e' : j' = j
          · subst e'
            exact hdj
          · simp only [Function.update, e', dite_false] at hp
            exact h5 j' hj' hp
        · intro j' hj' hm
          by_cases e' : j' = j
          · subst e'
            simp
          · simp only [Function.update, e', dite_false]
            exact h6 j' hj' hm
      · simp at h
    · simp at h
  | probeSend j =>
    simp only at h
    split at h
    · rename_i sv hpj hmj
      split at h
      · rename_i hj
        simp only [Option.some.injEq] at h
        subst h
        refine ⟨hd, hcol, hmc, hn, hbad, ?_, ?_, ?_⟩
        · intro j' hj' hp
          by_cases e' : j' = j
          · subst e'
            simp at hp
          · simp only [Function.update, e', dite_false] at hp
            exact h5 j' hj' hp
        · intro j' hj' hm
          by_cases e' : j' = j
          · subst e'
            simp at hm
          · simp only [Function.update, e', dite_false] at hm ⊢
            exact h6 j' hj' hm
        · have := FanIn.fanIn_running_sum_update s.mplex s.n j hj (.send sv)
          rw [hmj] at this
          simp only [FanIn.fanIn_running_recv, FanIn.fanIn_running_send] at this
          rw [hwg]
          dsimp only
          omega
      · simp at h
    · simp at h
  | probeCancel j =>
    simp only at h
    split at h
    · simp [hd] at h
    · simp at h
  | mplexEnd j =>
    simp only at h
    split at h
    · rename_i hmj hpj
      split at h
      · rename_i hj
        simp only [Option.some.injEq] at h
        subst h
        refine ⟨hd, hcol, hmc, hn, hbad, h5, ?_, ?_⟩
        · intro j' hj' hm
          by_cases e' : j' = j
          · subst e'
            exact hpj
          · simp only [Function.update, e', dite_false] at hm
            exact h6 j' hj' hm
        · have := FanIn.fanIn_running_sum_update s.mplex s.n j hj .done
          rw [hmj] at this
          simp only [FanIn.fanIn_running_recv, FanIn.fanIn_running_done] at this
          dsimp only
          omega
      · simp at h
    · simp at h
  | mplexSend j =>
    simp only at h
    split at h
    · rename_i i hmj
      split at h
      · rename_i hcond
        simp only [Bool.and_eq_true, decide_eq_true_eq] at hcond
        obtain ⟨hj, _⟩ := hcond
        simp only [Option.some.injEq] at h
        subst h
        refine ⟨hd, hcol, hmc, hn, hbad, h5, ?_, ?_⟩
        · intro j' hj' hm
          by_cases e' : j' = j
          · subst e'
            simp at hm
          · simp only [Function.update, e', dite_false] at hm
            exact h6 j' hj' hm
        · have := FanIn.fanIn_running_sum_update s.mplex s.n j hj .recv
          rw [hmj] at this
          simp only [FanIn.fanIn_running_recv, FanIn.fanIn_running_send] at this
          rw [hwg]
          dsimp only
          omega
      · simp at h
    · simp at h
  | mplexCancel j =>
    simp only at h
    split at h
    · simp [hd] at h
    · simp at h
  | closeOut =>
    simp only at h
    split at h
    · rename_i hcond
      simp only [Bool.and_eq_true, beq_iff_eq] at hcond
      exfalso
      have h0 : ∑ j in Finset.range s.n, FanIn.running (s.mplex j) = 0 := by
        rw [← hwg]; exact hcond.1
      have hall : ∀ j, j < s.n → s.disc j = .closed := by
        intro j hj
        have hz := (Finset.sum_eq_zero_iff.mp h0) j (Finset.mem_range.mpr hj)
        have hm : s.mplex j = .done := by
          cases hm : s.mplex j <;> simp [hm, FanIn.running] at hz ⊢
        exact h5 j hj (h6 j hj hm)
      rcases hbad with ⟨_, _, hne⟩ | ⟨j0, hj0, hw⟩
      · exact hne 0 hn (hall 0 hn)
      · rw [hall j0 hj0] at hw
        exact Disc.noConfusion hw
    · simp at h
  | collectEnd =>
    simp [hmc] at h
  | mainReturn =>
    simp [hcol] at h

end Pipeline
/-- C1.  When `getServices` fails for a context `bad` of the list, with a
non-empty name and namespace, then under every schedule: the loop of `main`
that collects the results never ends, the merged stream is never closed and
`done` is never closed; `bad` is still to be sent by `gen`, or a discovery
goroutine sits at `<-done`, which only the return of `main` closes, and the
probe goroutine and the goroutine `mplex` behind it have not returned. -/
theorem discovery_error_blocks_the_pipeline (cfg : Pipeline.Config)
    (kubeContexts : List Context) (bad : Context) (err : String) (acts : List Pipeline.Act)
    (hmem : bad ∈ kubeContexts) (hname : bad.Name ≠ "") (hns : bad.Namespace ≠ "")
    (herr : cfg.getServices bad.Name bad.Namespace = .error err) :
    (runSched (Pipeline.step cfg) (Pipeline.init kubeContexts) acts).collected = false ∧
    (runSched (Pipeline.step cfg) (Pipeline.init kubeContexts) acts).mplexClosed = false ∧
    (runSched (Pipeline.step cfg) (Pipeline.init kubeContexts) acts).doneClosed = false ∧
    (bad ∈ (runSched (Pipeline.step cfg) (Pipeline.init kubeContexts) acts).gen ∨
      ∃ j, j < (runSched (Pipeline.step cfg) (Pipeline.init kubeContexts) acts).n ∧
        (runSched (Pipeline.step cfg) (Pipeline.init kubeContexts) acts).disc j = .waitDone ∧
        (runSched (Pipeline.step cfg) (Pipeline.init kubeContexts) acts).probe j ≠ .closed ∧
        (runSched (Pipeline.step cfg) (Pipeline.init kubeContexts) acts).mplex j ≠ .done) := by
  have hk : Gen.keep bad = true := by simp [Gen.keep, hname, hns]
  obtain ⟨hd, hcol, hmc, _, hbad, h5, h6, _⟩ :=
    runSched_invariant (Pipeline.step cfg) (Pipeline.Stuck bad)
      (Pipeline.stuck_step cfg bad err hk herr) acts _ (Pipeline.stuck_init bad kubeContexts hmem)
  refine ⟨hcol, hmc, hd, ?_⟩
  rcases hbad with ⟨hb, _, _⟩ | ⟨j, hj, hw⟩
  · exact Or.inl hb
  · right
    have hp : (runSched (Pipeline.step cfg) (Pipeline.init kubeContexts) acts).probe j ≠
        .closed := fun e => by
      have := h5 j hj e
      rw [hw] at this
      exact Pipeline.Disc.noConfusion this
    exact ⟨j, hj, hw, hp, fun e => hp (h6 j hj e)⟩

theorem discovery_error_blocks_the_pipeline_witness :
    (runSched (Pipeline.step twoContexts) (Pipeline.init [badContext, goodContext])
      twoContextsSchedule).collected = false ∧
    (runSched (Pipeline.step twoContexts) (Pipeline.init [badContext, goodContext])
      twoContextsSchedule).mplexClosed = false ∧
    (runSched (Pipeline.step twoContexts) (Pipeline.init [badContext, goodContext])
      twoContextsSchedule).doneClosed = false ∧
    (badContext ∈ (runSched (Pipeline.step twoContexts) (Pipeline.init [badContext, goodContext])
        twoContextsSchedule).gen ∨
      ∃ j, j < (runSched (Pipeline.step twoContexts) (Pipeline.init [badContext, goodContext])
          twoContextsSchedule).n ∧
        (runSched (Pipeline.step twoContexts) (Pipeline.init [badContext, goodContext])
          twoContextsSchedule).disc j = .waitDone ∧
        (runSched (Pipeline.step twoContexts) (Pipeline.init [badContext, goodContext])
          twoContextsSchedule).probe j ≠ .closed ∧
        (runSched (Pipeline.step twoContexts) (Pipeline.init [badContext, goodContext])
          twoContextsSchedule).mplex j ≠ .done) :=
  discovery_error_blocks_the_pipeline twoContexts [badContext, goodContext] badContext
    "connection refused" twoContextsSchedule (by decide) (by decide) (by decide) rfl

/-- The two contexts under `twoContextsSchedule`: the two rows of `prod` are
collected, the goroutines of `prod` have returned, the discovery goroutine of
`staging` sits at `<-done` and the run does not end. -/
theorem two_contexts_run :
    (runSched (Pipeline.step twoContexts) (Pipeline.init [badContext, goodContext])
      twoContextsSchedule).results =
      [{ Name := "api", Port := "443", Context := "prod", Namespace := "default",
         CertIssuer := "Let's Encrypt", Error := "", StatusCode := 0 },
       { Name := "web", Port := "8443", Context := "prod", Namespace := "default",
         CertIssuer := "Let's Encrypt", Error := "", StatusCode := 0 }] ∧
    (runSched (Pipeline.step twoContexts) (Pipeline.init [badContext, goodContext])
      twoContextsSchedule).disc 0 = .waitDone ∧
    (runSched (Pipeline.step twoContexts) (Pipeline.init [badContext, goodContext])
      twoContextsSchedule).mplex 1 = .done ∧
    (runSched (Pipeline.step twoContexts) (Pipeline.init [badContext, goodContext])
      twoContextsSchedule).wg = 1 ∧
    (runSched (Pipeline.step twoContexts) (Pipeline.init [badContext, goodContext])
      twoContextsSchedule).collected = false := by
  decide

/-- The context `prod` alone under `oneContextSchedule`: the run ends, with the
two rows of `prod` collected and both counters at two services. -/
theorem one_context_run :
    (runSched (Pipeline.step twoContexts) (Pipeline.init [goodContext])
      oneContextSchedule).results =
      [{ Name := "api", Port := "443", Context := "prod", Namespace := "default",
         CertIssuer := "Let's Encrypt", Error := "", StatusCode := 0 },
       { Name := "web", Port := "8443", Context := "prod", Namespace := "default",
         CertIssuer := "Let's Encrypt", Error := "", StatusCode := 0 }] ∧
    (runSched (Pipeline.step twoContexts) (Pipeline.init [goodContext])
      oneContextSchedule).collected = true ∧
    (runSched (Pipeline.step twoContexts) (Pipeline.init [goodContext])
      oneContextSchedule).doneClosed = true ∧
    (runSched (Pipeline.step twoContexts) (Pipeline.init [goodContext])
      oneContextSchedule).ttlSvcs = 2 ∧
    (runSched (Pipeline.step twoContexts) (Pipeline.init [goodContext])
      oneContextSchedule).doneSvcs = -2 := by
  decide
end K8sCertIssuer
